import Mathlib

/-!
A shallow embedding of the q-gui lighting/sound console core
(src/console.rs, src/dmx_types.rs, src/dmx_output.rs, src/osc.rs,
src/audio.rs, plus the follow-handling loop of src/ui.rs), with theorems
checking the natural-language specification against it.

Modelling conventions:
* Rust `f32`/`f64` values are modelled as exact rationals (`ℚ`); the
  claims under scrutiny are about the algorithmic structure of the
  computations, not about floating-point rounding.
* `u8`/`u32`/`usize` are modelled as `Nat`; `i32`/`i64` (OSC integer
  arguments) as `ℤ`.  `saturating_sub` on unsigned integers coincides
  with truncated `Nat` subtraction.
* A Rust panic (out-of-bounds slice indexing, `Vec::insert` past the
  end) is modelled by returning `none` from an `Option`-valued function.
* The `as u8` cast from `f32` saturates into [0,255] and truncates
  toward zero; `u8OfRat` below reproduces this on `ℚ`.
-/

namespace QGui

/-- Rust `as u8` applied to a (nonnegative-or-not) `f32` value, on `ℚ`:
truncation toward zero, saturating into `[0, 255]`. -/
def u8OfRat (q : ℚ) : Nat :=
  if q ≤ 0 then 0 else min 255 (Int.toNat ⌊q⌋)

/-- `DMX_CHANNELS` from the `open_dmx` crate: the fixed frame size. -/
def DMX_CHANNELS : Nat := 512

/-- `Cue` (src/dmx_types.rs): id, name, fade and delay times, and the
snapshot of channel levels. -/
structure Cue where
  id : Nat
  name : String
  fade_time : ℚ
  delay : ℚ
  levels : List Nat
  deriving DecidableEq, Repr

/-- Modelled from the spec: `FadeDirection` is referenced by
src/dmx_output.rs (`use crate::dmx_types::FadeDirection`) but its
definition is not among the provided sources; the spec describes it as
the "last fade direction" flag gating interpolation, with one direction
per sense of cue travel. -/
inductive FadeDirection where
  | Positive
  | Negative
  deriving DecidableEq, Repr

/-- `Executor` (src/dmx_types.rs).  The `last_direction` field is read
by src/dmx_output.rs but absent from the provided `Executor`
declaration; it is modelled from the spec as an optional fade
direction. -/
structure Executor where
  id : Nat
  current_cue : Option Nat
  current_cue_index : Nat
  is_running : Bool
  cue_list : List Cue
  fader_level : ℚ
  stored_channels : List Nat
  target_level : ℚ
  current_output_level : ℚ
  fade_start_time : ℚ
  is_fading : Bool
  last_fader_level : ℚ
  last_direction : Option FadeDirection
  deriving DecidableEq, Repr

/-- `DMXBufferValue` (src/dmx_types.rs): one 1-based channel/value pair
of the override buffer. -/
structure DMXBufferValue where
  chan : Nat
  dmx : Nat
  deriving DecidableEq, Repr

/-- `Color` (src/dmx_types.rs). -/
structure Color where
  r : Nat
  g : Nat
  b : Nat
  w : Nat
  amber : Nat
  uv : Nat
  deriving DecidableEq, Repr

/-- `Color::has_color` (src/dmx_types.rs). -/
def Color.has_color (c : Color) : Bool :=
  c.r ≠ 0 ∨ c.g ≠ 0 ∨ c.b ≠ 0 ∨ c.w ≠ 0

/-- `ChannelType` (src/dmx_types.rs). -/
inductive ChannelType where
  | Intensity | Red | Green | Blue | White | Amber | UV
  | ColorWheel | CTO | CTB
  | Pan | PanFine | Tilt | TiltFine
  | GoboWheel | GoboRotation | GoboWheel2 | GoboRotation2
  | Shutter | Strobe | Zoom | Focus | Prism | Frost | Control | Speed
  deriving DecidableEq, Repr

/-- `ChannelType::is` (src/dmx_types.rs). -/
def ChannelType.is (c v : ChannelType) : Bool := c = v

/-- `ChannelDef` (src/dmx_types.rs); the auto-generated `name` string is
irrelevant to every claim and omitted. -/
structure ChannelDef where
  channel_type : ChannelType
  offset : Nat
  deriving DecidableEq, Repr

/-- `FixtureMode` (src/dmx_types.rs). -/
structure FixtureMode where
  name : String
  channels : List ChannelDef
  deriving DecidableEq, Repr

/-- `FixtureTemplate` (src/dmx_types.rs). -/
structure FixtureTemplate where
  id : Nat
  name : String
  manufacturer : String
  modes : List FixtureMode
  is_user_defined : Bool
  deriving DecidableEq, Repr

/-- `FixtureTemplate::get_mode` (src/dmx_types.rs). -/
def FixtureTemplate.get_mode (t : FixtureTemplate) (index : Nat) : Option FixtureMode :=
  t.modes.get? index

/-- `FixtureTemplateLibrary` (src/dmx_types.rs). -/
structure FixtureTemplateLibrary where
  templates : List FixtureTemplate
  next_id : Nat
  deriving DecidableEq, Repr

/-- `FixtureTemplateLibrary::get_template` (src/dmx_types.rs). -/
def FixtureTemplateLibrary.get_template (lib : FixtureTemplateLibrary) (id : Nat) :
    Option FixtureTemplate :=
  lib.templates.find? (fun t => t.id = id)

/-- `Fixture` (src/dmx_types.rs).  `custom_values` (a `HashMap` from
channel offset to raw value) is modelled as an association list. -/
structure Fixture where
  id : Nat
  name : String
  start_channel : Nat
  template_id : Nat
  mode_index : Nat
  intensity : Nat
  color : Color
  pan : Nat
  tilt : Nat
  shutter : Nat
  gobo : Nat
  zoom : Nat
  focus : Nat
  custom_values : List (Nat × Nat)
  deriving DecidableEq, Repr

/-- `HashMap::get(...).unwrap_or(&0)` over the association list model. -/
def Fixture.custom_value (f : Fixture) (offset : Nat) : Nat :=
  match f.custom_values.lookup offset with
  | some v => v
  | none => 0

/-- `Fixture::get_fixture_as_buffer` (src/dmx_types.rs): expand the
fixture's current values over its mode's channel definitions into
(channel type, 1-based buffer value) pairs. -/
def Fixture.get_fixture_as_buffer (f : Fixture) (template : FixtureTemplate) :
    List (ChannelType × DMXBufferValue) :=
  match template.get_mode f.mode_index with
  | some mode =>
    mode.channels.map (fun chan_def =>
      let value : Nat :=
        match chan_def.channel_type with
        | .Intensity => f.intensity
        | .Red => f.color.r
        | .Green => f.color.g
        | .Blue => f.color.b
        | .White => f.color.w
        | .Amber => f.color.amber
        | .UV => f.color.uv
        | .Pan => f.pan >>> 8
        | .PanFine => f.pan &&& 255
        | .Tilt => f.tilt >>> 8
        | .TiltFine => f.tilt &&& 255
        | .Shutter => f.shutter
        | .Strobe => f.shutter
        | .GoboWheel => f.gobo
        | .Zoom => f.zoom
        | .Focus => f.focus
        | _ => f.custom_value chan_def.offset
      (chan_def.channel_type, DMXBufferValue.mk (f.start_channel + chan_def.offset) value))
  | none => []

/-- `AudioAction` (src/dmx_types.rs). -/
inductive AudioAction where
  | None
  | Follow
  | Continue
  deriving DecidableEq, Repr

/-- `AudioTrack` (src/dmx_types.rs). -/
structure AudioTrack where
  id : Nat
  name : String
  file_path : String
  fade_in : ℚ
  fade_out : ℚ
  start_point : ℚ
  end_point : Option ℚ
  volume : ℚ
  duration : ℚ
  action : AudioAction
  deriving DecidableEq, Repr

/-- `OSCNaming` (src/osc.rs): configurable OSC address strings. -/
structure OSCNaming where
  master_volume : String
  master_dmx : String
  executor_identifier : String
  executor_dimmer : String
  executor_go : String
  executor_go_back : String
  deriving DecidableEq, Repr

/-- `Direction` (src/console.rs). -/
inductive Direction where
  | Up
  | Down
  deriving DecidableEq, Repr

/-- `ConsoleCommand` (src/console.rs). -/
inductive ConsoleCommand where
  | DimChannel (ch : Nat) (value : Nat)
  | DimFixture (fixture_id : Nat) (value : Nat)
  | SetFixtureColor (fixture_id : Nat) (r : Nat) (g : Nat) (b : Nat) (w : Nat)
  | Blackout
  | Clear
  | MoveExecCueToExecCue (exec_from : Nat) (cue_from : Nat) (exec_to : Nat) (cue_to : Nat)
  | MoveExecCueDirection (exec_from : Nat) (cue_from : Nat) (direction : Direction)
  deriving DecidableEq, Repr

/-- `ConsoleError` (src/console.rs). -/
inductive ConsoleError where
  | UnknownCommand (s : String)
  | InvalidChannel (s : String) (n : Nat)
  | InvalidFixtureId (s : String)
  | InvalidLevel (s : String)
  | MissingArgs (s : String)
  deriving DecidableEq, Repr

/-- The `thiserror`-derived display strings of `ConsoleError`
(src/console.rs). -/
def ConsoleError.toMessage : ConsoleError → String
  | .UnknownCommand s => "Unknown command: " ++ s
  | .InvalidChannel s n => "Invalid channel: " ++ s ++ ". Must be between 1 and " ++ toString n
  | .InvalidFixtureId s => "Invalid fixture id: " ++ s
  | .InvalidLevel s => "Invalid level: " ++ s
  | .MissingArgs s => "Missing arguments for command: " ++ s

/-- `ConsoleState` (src/ui.rs), restricted to the fields read or written
by the embedded operations (console commands, OSC master routing and the
mixing pipeline); the remaining fields are pure presentation state that
none of the embedded code paths touch. -/
structure ConsoleState where
  command_input : String
  command_error : Option String
  command_history : List ConsoleCommand
  channels : List Nat
  buffer : List DMXBufferValue
  executors : List Executor
  fixtures : List Fixture
  template_library : FixtureTemplateLibrary
  master_dimmer : ℚ
  audio_tracks : List AudioTrack
  master_volume : ℚ
  audio_index : Nat
  osc_address_manager : OSCNaming
  deriving DecidableEq, Repr

/-! ### The command parser (src/console.rs, `ConsoleCommand::try_from`)

The Rust parser lowercases and trims the input and then matches it with
`scan_fmt!` against a fixed sequence of shapes.  `scan_fmt` is an
external crate whose source is not part of this repository; its patterns
here are whitespace-separated literals and numeric captures, which we
model (as the spec describes: "parsed by case-based pattern matching
against a fixed set of shapes") by whitespace tokenisation: a numeric
capture accepts a digit token within the target type's range. -/

/-- ASCII whitespace, for `str::trim` and tokenisation. -/
def isWhitespaceChar (c : Char) : Bool :=
  c = ' ' ∨ c = '\t' ∨ c = '\n' ∨ c = '\r'

/-- Strip leading and trailing whitespace (`str::trim`). -/
def trimChars (l : List Char) : List Char :=
  ((l.dropWhile isWhitespaceChar).reverse.dropWhile isWhitespaceChar).reverse

/-- ASCII lowercasing of one character (`str::to_lowercase` on the
ASCII command alphabet). -/
def lowerChar (c : Char) : Char :=
  if 'A' ≤ c ∧ c ≤ 'Z' then Char.ofNat (c.toNat + 32) else c

/-- Split a character list at whitespace, dropping empty tokens. -/
def splitWsAux : List Char → List Char → List (List Char)
  | [], acc => if acc.isEmpty then [] else [acc.reverse]
  | c :: cs, acc =>
    if isWhitespaceChar c then
      if acc.isEmpty then splitWsAux cs [] else acc.reverse :: splitWsAux cs []
    else splitWsAux cs (c :: acc)

/-- Whitespace tokenisation of the trimmed, lowercased command line. -/
def tokensOf (l : List Char) : List (List Char) := splitWsAux l []

/-- Digits-only natural number parse of one token. -/
def parseNatChars (l : List Char) : Option Nat :=
  if ¬ l.isEmpty ∧ l.all Char.isDigit then
    some (l.foldl (fun n c => n * 10 + (c.toNat - 48)) 0)
  else none

/-- A `scan_fmt` `u8` capture: digits, value at most 255. -/
def parseU8 (t : List Char) : Option Nat :=
  match parseNatChars t with
  | some n => if n ≤ 255 then some n else none
  | none => none

/-- A `scan_fmt` `u32` capture: digits, value below `2^32`. -/
def parseU32 (t : List Char) : Option Nat :=
  match parseNatChars t with
  | some n => if n < 4294967296 then some n else none
  | none => none

/-- A `scan_fmt` `usize` capture: digits, value below `2^64`. -/
def parseUsize (t : List Char) : Option Nat :=
  match parseNatChars t with
  | some n => if n < 18446744073709551616 then some n else none
  | none => none

/-- A capture prefixed by a literal letter, as in the color shape. -/
def parseTagged (tag : Char) (t : List Char) : Option Nat :=
  match t with
  | c :: rest => if c = tag then parseU8 rest else none
  | [] => none

/-- `ConsoleCommand::try_from` (src/console.rs): try the command shapes
in source order, falling through to `UnknownCommand` on the original
input string. -/
def ConsoleCommand.tryFrom (value : String) : Except ConsoleError ConsoleCommand :=
  let s := (trimChars value.data).map lowerChar
  if s = "b/o".data ∨ s = "blackout".data ∨ s = "bo".data then .ok .Blackout
  else if s = "clear".data ∨ s = "clr".data then .ok .Clear
  else
    match tokensOf s with
    | [c1, n, c2, v] =>
      if c1 = "chan".data ∧ c2 = "at".data then
        match parseUsize n, parseU8 v with
        | some ch, some value => .ok (.DimChannel ch value)
        | _, _ => .error (.UnknownCommand value)
      else if c1 = "fix".data ∧ c2 = "at".data then
        match parseU32 n, parseU8 v with
        | some fixture_id, some value => .ok (.DimFixture fixture_id value)
        | _, _ => .error (.UnknownCommand value)
      else .error (.UnknownCommand value)
    | [c1, n, c2, rt, gt, bt, wt] =>
      if c1 = "fix".data ∧ c2 = "color".data then
        match parseU32 n, parseTagged 'r' rt, parseTagged 'g' gt,
            parseTagged 'b' bt, parseTagged 'w' wt with
        | some fixture_id, some r, some g, some b, some w =>
          .ok (.SetFixtureColor fixture_id r g b w)
        | _, _, _, _, _ => .error (.UnknownCommand value)
      else .error (.UnknownCommand value)
    | [m1, e1, a, q1, x, t1, e2, b, q2, y] =>
      if m1 = "move".data ∧ e1 = "exec".data ∧ q1 = "cue".data ∧ t1 = "to".data ∧
          e2 = "exec".data ∧ q2 = "cue".data then
        match parseU32 a, parseU32 x, parseU32 b, parseU32 y with
        | some exec_from, some cue_from, some exec_to, some cue_to =>
          .ok (.MoveExecCueToExecCue exec_from cue_from exec_to cue_to)
        | _, _, _, _ => .error (.UnknownCommand value)
      else .error (.UnknownCommand value)
    | [m1, e1, a, q1, x, d1] =>
      if m1 = "move".data ∧ e1 = "exec".data ∧ q1 = "cue".data ∧ d1 = "up".data then
        match parseU32 a, parseU32 x with
        | some exec_from, some cue_from =>
          .ok (.MoveExecCueDirection exec_from cue_from .Up)
        | _, _ => .error (.UnknownCommand value)
      else if m1 = "move".data ∧ e1 = "exec".data ∧ q1 = "cue".data ∧ d1 = "down".data then
        match parseU32 a, parseU32 x with
        | some exec_from, some cue_from =>
          .ok (.MoveExecCueDirection exec_from cue_from .Down)
        | _, _ => .error (.UnknownCommand value)
      else .error (.UnknownCommand value)
    | _ => .error (.UnknownCommand value)

/-- `ConsoleCommand::parse` (src/console.rs). -/
def ConsoleCommand.parse (input : String) : Except ConsoleError ConsoleCommand :=
  ConsoleCommand.tryFrom input

/-! ### Executing console commands (src/console.rs, `execute_console_command`) -/

/-- The buffer insert-or-update step used by every buffer-writing
command (src/console.rs): mutate the first entry with the given channel
if one exists, otherwise push a new entry at the end. -/
def bufInsertOrUpdate : List DMXBufferValue → Nat → Nat → List DMXBufferValue
  | [], ch, v => [DMXBufferValue.mk ch v]
  | b :: bs, ch, v =>
    if b.chan = ch then DMXBufferValue.mk ch v :: bs
    else b :: bufInsertOrUpdate bs ch v

/-- `iter().find(...)` returning the index together with the first
matching element. -/
def findFirst (p : α → Bool) : List α → Option (Nat × α)
  | [] => none
  | a :: l => if p a then some (0, a) else (findFirst p l).map (fun ix => (ix.1 + 1, ix.2))

/-- `Vec::swap`: panics (`none`) when an index is out of bounds. -/
def listSwap (l : List α) (i j : Nat) : Option (List α) :=
  match l.get? i, l.get? j with
  | some a, some b => some ((l.set i b).set j a)
  | _, _ => none

/-- `Vec::insert`: panics (`none`) when the index exceeds the length. -/
def listInsertIdx (n : Nat) (a : α) (l : List α) : Option (List α) :=
  if n ≤ l.length then some (List.insertIdx n a l) else none

/-- The forward id-collision shift of the cue-move code
(src/console.rs): once an element with the colliding id has been seen,
every element from there on has its id incremented by one. -/
def shiftIdsFrom (found : Bool) (x : Nat) : List Cue → List Cue
  | [] => []
  | c :: cs =>
    let found2 := found || c.id = x
    (if found2 then { c with id := c.id + 1 } else c) :: shiftIdsFrom found2 x cs

/-- The state update of the `MoveExecCueToExecCue` branch of
`execute_console_command` (src/console.rs lines 256-343).  The two id
lookups happen up front on the unmodified lists; every later mutation
re-fetches `state.executors[i]`, which matters when both executor
numbers saturate to the same index.  Out-of-range executor indexing,
`Vec::remove` and `Vec::insert` past the end panic (`none`).  The
branch only ever mutates `state.executors`, so it is embedded as a
transformation of the executor list. -/
def moveExecCueToExecCue (executors : List Executor)
    (exec_from cue_from exec_to cue_to : Nat) : Option (List Executor) :=
  let exec_idx_from := exec_from - 1
  let exec_idx_to := exec_to - 1
  match executors.get? exec_idx_from with
  | none => none
  | some execF =>
  let cue_from_idx := execF.cue_list.findIdx? (fun c => c.id = cue_from)
  match executors.get? exec_idx_to with
  | none => none
  | some execT =>
  let cue_to_idx := execT.cue_list.findIdx? (fun c => c.id = cue_to)
  match cue_from_idx with
  | none => some executors
  | some idx_from =>
    match cue_to_idx with
    | some idx_to =>
      if exec_from = exec_to then
        match listSwap execF.cue_list idx_from idx_to with
        | none => none
        | some l2 =>
          some (executors.set exec_idx_from { execF with cue_list := l2 })
      else
        match execF.cue_list.get? idx_from with
        | none => none
        | some cue =>
        let executors1 :=
          executors.set exec_idx_from { execF with cue_list := execF.cue_list.eraseIdx idx_from }
        match executors1.get? exec_idx_to with
        | none => none
        | some execT1 =>
        match execT1.cue_list.get? idx_to with
        | none => none
        | some to_move =>
        let executors2 :=
          executors1.set exec_idx_to { execT1 with cue_list := execT1.cue_list.eraseIdx idx_to }
        match executors2.get? exec_idx_to with
        | none => none
        | some execT2 =>
        let executors3 :=
          executors2.set exec_idx_to
            { execT2 with cue_list := shiftIdsFrom false cue.id execT2.cue_list }
        match executors3.get? exec_idx_from with
        | none => none
        | some execF3 =>
        let executors4 :=
          executors3.set exec_idx_from
            { execF3 with cue_list := shiftIdsFrom false to_move.id execF3.cue_list }
        match executors4.get? exec_idx_from with
        | none => none
        | some execF4 =>
        match listInsertIdx idx_from to_move execF4.cue_list with
        | none => none
        | some listF =>
        let executors5 := executors4.set exec_idx_from { execF4 with cue_list := listF }
        match executors5.get? exec_idx_to with
        | none => none
        | some execT5 =>
        match listInsertIdx idx_to cue execT5.cue_list with
        | none => none
        | some listT =>
        some (executors5.set exec_idx_to { execT5 with cue_list := listT })
    | none =>
      match execF.cue_list.get? idx_from with
      | none => none
      | some cue =>
        let executors1 :=
          executors.set exec_idx_from { execF with cue_list := execF.cue_list.eraseIdx idx_from }
        match executors1.get? exec_idx_to with
        | none => none
        | some execT1 =>
          if 0 < execT1.cue_list.length then
            let listT2 := shiftIdsFrom false cue.id execT1.cue_list
            match listInsertIdx (cue_to - 1) cue listT2 with
            | none => none
            | some listT3 =>
              some (executors1.set exec_idx_to { execT1 with cue_list := listT3 })
          else
            some (executors1.set exec_idx_to { execT1 with cue_list := execT1.cue_list ++ [cue] })

/-- The state update of the `MoveExecCueDirection` branch of
`execute_console_command` (src/console.rs lines 373-399), again as a
transformation of the executor list, the only state it mutates. -/
def moveExecCueDirection (executors : List Executor)
    (exec_from cue_from : Nat) (direction : Direction) : Option (List Executor) :=
  let exec_idx := exec_from - 1
  match executors.get? exec_idx with
  | none => none
  | some exec1 =>
    let cue_size := exec1.cue_list.length
    match exec1.cue_list.findIdx? (fun c => c.id = cue_from) with
    | none => some executors
    | some idx =>
      let j :=
        match direction with
        | .Up => (idx + 1) % cue_size
        | .Down => (cue_size + idx - 1) % cue_size
      match listSwap exec1.cue_list idx j with
      | none => none
      | some l2 =>
        some (executors.set exec_idx { exec1 with cue_list := l2 })

/-- The `DimFixture` branch of `execute_console_command`
(src/console.rs lines 151-206). -/
def dimFixture (s : ConsoleState) (cmd : ConsoleCommand)
    (fixture_id value : Nat) : ConsoleState :=
  match findFirst (fun f => f.id = fixture_id) s.fixtures with
  | none => { s with command_error := some ("Fixture " ++ toString fixture_id ++ " not found") }
  | some (fi, fixture0) =>
    let fixture1 := { fixture0 with intensity := value }
    match s.template_library.get_template fixture1.template_id with
    | some fixture_template =>
      let values := fixture1.get_fixture_as_buffer fixture_template
      let has_color := fixture1.color.has_color
      let channels_to_dim := values.filterMap (fun tb =>
        if has_color then
          (if tb.1.is .Intensity then some tb.2 else none)
        else
          (if tb.1.is .Intensity then some tb.2
           else if tb.1.is .White then some tb.2 else none))
      let fixture2 :=
        if ¬ has_color ∧ values.any (fun tb => tb.1.is .White) then
          { fixture1 with color := { fixture1.color with w := value } }
        else fixture1
      let buffer2 := channels_to_dim.foldl (fun b buf => bufInsertOrUpdate b buf.chan value) s.buffer
      { s with fixtures := s.fixtures.set fi fixture2,
               buffer := buffer2,
               command_history := s.command_history ++ [cmd] }
    | none =>
      let channel := fixture1.start_channel
      { s with fixtures := s.fixtures.set fi fixture1,
               buffer := bufInsertOrUpdate s.buffer channel value,
               command_history := s.command_history ++ [cmd] }

/-- The `SetFixtureColor` branch of `execute_console_command`
(src/console.rs lines 207-255). -/
def setFixtureColor (s : ConsoleState) (cmd : ConsoleCommand)
    (fixture_id r g b w : Nat) : ConsoleState :=
  match findFirst (fun f => f.id = fixture_id) s.fixtures with
  | none => { s with command_error := some ("Fixture " ++ toString fixture_id ++ " not found") }
  | some (fi, fixture0) =>
    match s.template_library.get_template fixture0.template_id with
    | some fixture_template =>
      let values := fixture0.get_fixture_as_buffer fixture_template
      let buffer2 := values.foldl (fun acc tb =>
        match tb.1 with
        | .Red => bufInsertOrUpdate acc tb.2.chan r
        | .Green => bufInsertOrUpdate acc tb.2.chan g
        | .Blue => bufInsertOrUpdate acc tb.2.chan b
        | .White => bufInsertOrUpdate acc tb.2.chan w
        | _ => acc) s.buffer
      let fixture2 := { fixture0 with
        color := { fixture0.color with r := r, g := g, b := b, w := w } }
      { s with fixtures := s.fixtures.set fi fixture2,
               buffer := buffer2,
               command_history := s.command_history ++ [cmd] }
    | none => s

/-- `execute_console_command` (src/console.rs): clear the recorded
error, parse `command_input`, and apply the parsed command; a parse
failure only records the error message.  A Rust panic inside the
cue-move branches is `none`. -/
def execute_console_command (s : ConsoleState) : Option ConsoleState :=
  let s := { s with command_error := none }
  match ConsoleCommand.parse s.command_input with
  | .error e => some { s with command_error := some e.toMessage }
  | .ok cmd =>
    match cmd with
    | .Blackout =>
      some { s with command_history := s.command_history ++ [cmd],
                    master_dimmer := if s.master_dimmer ≠ 0 then 0 else 1 }
    | .Clear =>
      some { s with command_history := s.command_history ++ [cmd], buffer := [] }
    | .DimChannel ch value =>
      some { s with buffer := bufInsertOrUpdate s.buffer ch value,
                    command_history := s.command_history ++ [cmd] }
    | .DimFixture fixture_id value =>
      some (dimFixture s cmd fixture_id value)
    | .SetFixtureColor fixture_id r g b w =>
      some (setFixtureColor s cmd fixture_id r g b w)
    | .MoveExecCueToExecCue exec_from cue_from exec_to cue_to =>
      (moveExecCueToExecCue s.executors exec_from cue_from exec_to cue_to).map
        (fun l => { s with executors := l })
    | .MoveExecCueDirection exec_from cue_from direction =>
      (moveExecCueDirection s.executors exec_from cue_from direction).map
        (fun l => { s with executors := l })

/-! ### The executor fade state machine (src/dmx_types.rs)

`go`, `go_back` and `update_fade` read the wall clock; the embedding
takes the current time `now` (seconds since the epoch) as an explicit
parameter. -/

/-- `Executor::go` (src/dmx_types.rs): advance to the next cue
(wrapping), snapshot its levels, and start a fade at `now`. -/
def Executor.go (e : Executor) (now : ℚ) : Executor :=
  if e.cue_list.isEmpty then e
  else
    let current_cue_index := (e.current_cue_index + 1) % e.cue_list.length
    match e.cue_list.get? current_cue_index with
    | none => e
    | some cue =>
      { e with current_cue_index := current_cue_index,
               current_cue := some cue.id,
               stored_channels := cue.levels,
               target_level := e.fader_level,
               is_fading := true,
               fade_start_time := now }

/-- `Executor::go_back` (src/dmx_types.rs): step to the previous cue
(wrapping), snapshot its levels, and start a fade at `now`. -/
def Executor.go_back (e : Executor) (now : ℚ) : Executor :=
  if e.cue_list.isEmpty then e
  else
    let current_cue_index := (e.cue_list.length + e.current_cue_index - 1) % e.cue_list.length
    match e.cue_list.get? current_cue_index with
    | none => e
    | some cue =>
      { e with current_cue_index := current_cue_index,
               current_cue := some cue.id,
               stored_channels := cue.levels,
               target_level := e.fader_level,
               is_fading := true,
               fade_start_time := now }

/-- `Executor::update_fade` (src/dmx_types.rs lines 948-985).  Indexing
`cue_list[current_cue_index]` with the index past the end panics
(`none`). -/
def Executor.update_fade (e : Executor) (now : ℚ) : Option Executor :=
  let e :=
    if e.last_fader_level = 0 ∧ e.fader_level ≠ 0 then
      { e with target_level := 1, is_fading := true, fade_start_time := now }
    else e
  let e := { e with last_fader_level := e.fader_level }
  if ¬ e.is_fading ∨ e.cue_list.isEmpty then
    some { e with current_output_level := e.fader_level }
  else
    match e.cue_list.get? e.current_cue_index with
    | none => none
    | some current_cue =>
      let fade_time := current_cue.fade_time
      if fade_time ≤ 0 then
        some { e with current_output_level := e.fader_level, is_fading := false }
      else
        let elapsed := now - e.fade_start_time
        let progress := min (elapsed / fade_time) 1
        let e := { e with current_output_level := progress * e.fader_level }
        if 1 ≤ progress then
          some { e with is_fading := false, current_output_level := e.fader_level }
        else some e

/-! ### The mixing pipeline (src/dmx_output.rs, `mix_executor_outputs`) -/

/-- The non-interpolating executor write loop (src/dmx_output.rs lines
38-47 and 50-59): for each (index, level) of the cue's levels, write
`((level * current_output_level) * master_dimmer) as u8` at that frame
index; a direct index past the frame end panics (`none`). -/
def writeScaled (out master : ℚ) : List Nat → Nat → List Nat → Option (List Nat)
  | [], _, frame => some frame
  | v :: vs, idx, frame =>
    if idx < frame.length then
      writeScaled out master vs (idx + 1)
        (frame.set idx (u8OfRat (((v : ℚ) * out) * master)))
    else none

/-- The interpolating executor write loop (src/dmx_output.rs lines
28-34): iterate over the current cue's levels; index `prev_cue.levels`
and the frame directly (panic = `none`); write
`((prev + (curr - prev) * progress) * master_dimmer) as u8`. -/
def writeInterp (progress master : ℚ) : List Nat → List Nat → Nat → List Nat → Option (List Nat)
  | [], _, _, frame => some frame
  | _ :: _, [], _, _ => none
  | v :: vs, p :: ps, idx, frame =>
    if idx < frame.length then
      writeInterp progress master vs ps (idx + 1)
        (frame.set idx (u8OfRat (((p : ℚ) + ((v : ℚ) - (p : ℚ)) * progress) * master)))
    else none

/-- One executor's contribution to the frame (src/dmx_output.rs lines
9-62), applied after its `update_fade`. -/
def execWrite (master : ℚ) (e : Executor) (frame : List Nat) : Option (List Nat) :=
  if 0 < e.fader_level then
    match e.cue_list.get? e.current_cue_index with
    | none => some frame
    | some current_cue =>
      if e.is_fading then
        match e.last_direction with
        | some direction =>
          let prev_cue_idx :=
            match direction with
            | .Positive => (e.current_cue_index + e.cue_list.length - 1) % e.cue_list.length
            | .Negative => (e.current_cue_index + 1) % e.cue_list.length
          match e.cue_list.get? prev_cue_idx with
          | none => some frame
          | some prev_cue =>
            writeInterp e.current_output_level master current_cue.levels prev_cue.levels 0 frame
        | none => writeScaled e.current_output_level master current_cue.levels 0 frame
      else writeScaled e.current_output_level master current_cue.levels 0 frame
  else some frame

/-- The executor phase of the mixing tick: `update_fade` each executor
in order and write its output into the frame. -/
def mixExecPhase (now master : ℚ) : List Executor → List Nat → Option (List Executor × List Nat)
  | [], frame => some ([], frame)
  | e :: es, frame =>
    match e.update_fade now with
    | none => none
    | some e1 =>
      match execWrite master e1 frame with
      | none => none
      | some frame1 =>
        match mixExecPhase now master es frame1 with
        | none => none
        | some (l, f) => some (e1 :: l, f)

/-- The buffer-override phase (src/dmx_output.rs lines 65-70): each
entry overwrites the frame at `chan.saturating_sub(1)` when that index
exists (`get_mut`), and is skipped otherwise.  `List.set` out of range
is the same no-op. -/
def applyBuffer (buffer : List DMXBufferValue) (frame : List Nat) : List Nat :=
  buffer.foldl (fun f v => f.set (v.chan - 1) v.dmx) frame

/-- The mixed 512-channel frame of one tick of `mix_executor_outputs`
(src/dmx_output.rs): all-zero frame, executor phase, then buffer
overrides.  This is the value handed to the transport. -/
def mixChans (now : ℚ) (s : ConsoleState) : Option (List Nat) :=
  match mixExecPhase now s.master_dimmer s.executors (List.replicate DMX_CHANNELS 0) with
  | none => none
  | some (_, frame) => some (applyBuffer s.buffer frame)

/-- `mix_executor_outputs` (src/dmx_output.rs) as a state transition:
the transport write and health poll are external I/O and omitted; the
recorded `channels` become the mixed frame exactly when it differs. -/
def mix_executor_outputs (now : ℚ) (s : ConsoleState) : Option ConsoleState :=
  match mixExecPhase now s.master_dimmer s.executors (List.replicate DMX_CHANNELS 0) with
  | none => none
  | some (execs1, frame) =>
    let dmx_chans := applyBuffer s.buffer frame
    some { s with executors := execs1,
                  channels := if dmx_chans ≠ s.channels then dmx_chans else s.channels }

/-! ### The OSC master routing (src/osc.rs, `handle_osc` lines 16-67) -/

/-- `rosc::OscType`, restricted to the argument types the handler
matches on; every other variant behaves as the fall-through arm. -/
inductive OscType where
  | Float (x : ℚ)
  | Double (x : ℚ)
  | Int (x : ℤ)
  | Long (x : ℤ)
  | Other
  deriving DecidableEq, Repr

/-- One argument of a message on the master-volume address
(src/osc.rs lines 20-36).  The `Int` and `Long` arms divide with Rust
integer division before converting to float. -/
def applyMasterVolumeArg (s : ConsoleState) (a : OscType) : ConsoleState :=
  match a with
  | .Float x => if 0 ≤ x ∧ x ≤ 3 / 2 then { s with master_volume := x } else s
  | .Double x => if 0 ≤ x ∧ x ≤ 150 then { s with master_volume := x / 100 } else s
  | .Int x => if 0 ≤ x ∧ x ≤ 150 then { s with master_volume := ((x / 100 : ℤ) : ℚ) } else s
  | .Long x => if 0 ≤ x ∧ x ≤ 1500 then { s with master_volume := ((x / 1000 : ℤ) : ℚ) } else s
  | .Other => s

/-- One argument of a message on the master-dimmer address
(src/osc.rs lines 46-62). -/
def applyMasterDmxArg (s : ConsoleState) (a : OscType) : ConsoleState :=
  match a with
  | .Float x => if 0 ≤ x ∧ x ≤ 1 then { s with master_dimmer := x } else s
  | .Int x => if 0 ≤ x ∧ x ≤ 100 then { s with master_dimmer := ((x / 100 : ℤ) : ℚ) } else s
  | .Double x => if 0 ≤ x ∧ x ≤ 100 then { s with master_dimmer := x / 100 } else s
  | .Long x => if 0 ≤ x ∧ x ≤ 1000 then { s with master_dimmer := ((x / 1000 : ℤ) : ℚ) } else s
  | .Other => s

/-- The master-volume and master-dimmer blocks of `handle_osc`
(src/osc.rs lines 16-67), for a message with the given address and
argument list; the per-executor blocks that follow are keyed on other
addresses and out of scope for the cited claim. -/
def handle_osc_master (addr : String) (args : List OscType) (s : ConsoleState) : ConsoleState :=
  let s1 := if addr = s.osc_address_manager.master_volume then args.foldl applyMasterVolumeArg s else s
  let s2 := if addr = s1.osc_address_manager.master_dmx then args.foldl applyMasterDmxArg s1 else s1
  s2

/-! ### The audio engine (src/audio.rs) -/

/-- `ActivePlayback` (src/audio.rs).  The `rodio::Player` handle is an
external resource; its observable state (paused flag, source-exhausted
flag, last volume written to it) is modelled by the three
`player_`-prefixed fields. -/
structure ActivePlayback where
  track_id : Nat
  player_paused : Bool
  player_empty : Bool
  player_volume : ℚ
  volume : ℚ
  master_volume : ℚ
  action : AudioAction
  deriving DecidableEq, Repr

/-- `AudioEngine` (src/audio.rs): the active-playback table and the
ended-track queue. -/
structure AudioEngine where
  active_players : List ActivePlayback
  ended_tracks : List (Nat × AudioAction)
  deriving DecidableEq, Repr

/-- The `retain` body of `AudioEngine::update` (src/audio.rs lines
136-147): keep paused entries untouched, move empty entries to the
ended list, and re-apply `volume * master_volume` to the rest.
Returns (kept players, newly ended entries in order). -/
def updateRetain : List ActivePlayback → List ActivePlayback × List (Nat × AudioAction)
  | [] => ([], [])
  | p :: ps =>
    let rest := updateRetain ps
    if p.player_paused then (p :: rest.1, rest.2)
    else if p.player_empty then (rest.1, (p.track_id, p.action) :: rest.2)
    else ({ p with player_volume := p.volume * p.master_volume } :: rest.1, rest.2)

/-- `AudioEngine::update` (src/audio.rs lines 132-155). -/
def AudioEngine.update (e : AudioEngine) : AudioEngine :=
  let r := updateRetain e.active_players
  { active_players := r.1, ended_tracks := e.ended_tracks ++ r.2 }

/-- `AudioEngine::get_ended_tracks` (src/audio.rs lines 173-177):
drain the ended queue, returning its contents. -/
def AudioEngine.get_ended_tracks (e : AudioEngine) :
    List (Nat × AudioAction) × AudioEngine :=
  (e.ended_tracks, { e with ended_tracks := [] })

/-- `AudioEngine::stop` (src/audio.rs lines 113-123): halt and discard
every active playback with the given track id. -/
def AudioEngine.stop (e : AudioEngine) (track_id : Nat) : AudioEngine :=
  { e with active_players := e.active_players.filter (fun p => ¬ p.track_id = track_id) }

/-- `AudioEngine::is_playing` (src/audio.rs lines 179-185). -/
def AudioEngine.is_playing (e : AudioEngine) (track_id : Nat) : Bool :=
  e.active_players.any (fun p => p.track_id = track_id ∧ ¬ p.player_empty ∧ ¬ p.player_paused)

/-- `AudioEngine::play` (src/audio.rs lines 51-111): stop any existing
playback of the track id first, then open/decode the file and the audio
device.  Those three fallible I/O steps are external; `open_result`
stands for their combined outcome (the `?` early returns).  On success
a fresh playback is appended; its player starts silent when a fade-in
is configured. -/
def AudioEngine.play (e : AudioEngine) (track : AudioTrack) (master_volume : ℚ)
    (open_result : Except String Unit) : Except String Unit × AudioEngine :=
  let e1 := e.stop track.id
  match open_result with
  | .error msg => (.error msg, e1)
  | .ok _ =>
    let playback : ActivePlayback :=
      { track_id := track.id,
        player_paused := false,
        player_empty := false,
        player_volume := if 0 < track.fade_in then 0 else 1,
        volume := track.volume,
        master_volume := master_volume,
        action := track.action }
    (.ok (), { e1 with active_players := e1.active_players ++ [playback] })

/-- The ended-track handling loop of `show_audio_tab` (src/ui.rs lines
1563-1575): for each drained (track id, action) with action `Follow`,
look the track up, advance to the next index modulo the track count,
start that track and record it as the current index.  Returns the list
of started track indexes (in order) and the final `audio_index`. -/
def handleEndedTracks (audio_tracks : List AudioTrack) (audio_index : Nat)
    (ended : List (Nat × AudioAction)) : List Nat × Nat :=
  ended.foldl (fun acc ta =>
    if ta.2 = AudioAction.Follow then
      match audio_tracks.findIdx? (fun t => t.id = ta.1) with
      | some idx =>
        let next_idx := (idx + 1) % audio_tracks.length
        match audio_tracks.get? next_idx with
        | some _ => (acc.1 ++ [next_idx], next_idx)
        | none => acc
      | none => acc
    else acc) ([], audio_index)

/-! ### Concrete fixtures for witnesses and counterexamples -/

/-- A cue with the given id and levels; zero fade and delay. -/
def exampleCue (i : Nat) (levels : List Nat) : Cue :=
  { id := i, name := "", fade_time := 0, delay := 0, levels := levels }

/-- An executor holding the given cue list, everything else at the
`Executor::new` defaults (fader down, not fading). -/
def exampleExecutor (cl : List Cue) : Executor :=
  { id := 0, current_cue := none, current_cue_index := 0, is_running := false,
    cue_list := cl, fader_level := 0, stored_channels := [],
    target_level := 0, current_output_level := 0, fade_start_time := 0,
    is_fading := false, last_fader_level := 0, last_direction := none }

/-- The default OSC address bindings (src/osc.rs, `OSCNaming::default`). -/
def exampleNaming : OSCNaming :=
  { master_volume := "/MasterVolume", master_dmx := "/MasterDMX",
    executor_identifier := "/Executor", executor_dimmer := "/Dimmer",
    executor_go := "/Go", executor_go_back := "/GoBack" }

/-- A minimal console state: no executors, fixtures or buffer, master
dimmer and volume at full. -/
def exampleState : ConsoleState :=
  { command_input := "", command_error := none, command_history := [],
    channels := List.replicate DMX_CHANNELS 0, buffer := [], executors := [],
    fixtures := [], template_library := { templates := [], next_id := 1 },
    master_dimmer := 1, audio_tracks := [], master_volume := 1,
    audio_index := 0, osc_address_manager := exampleNaming }

/-- State for the C1 counterexample: a buffer override of 200 on
channel 1 with the master dimmer at one half. -/
def stateC1 : ConsoleState :=
  { exampleState with buffer := [⟨1, 200⟩], master_dimmer := 1 / 2 }

/-- State for the C2 witness: a buffer override (channel 10, value 7)
over the all-zero frame. -/
def stateC2 : ConsoleState :=
  { exampleState with buffer := [⟨10, 7⟩] }

/-- State for the C3 counterexample: executor 1 holds cue id 3,
executor 2 holds cue ids 3 and 2; moving cue 3 across to destination id
1 makes the forward shift recreate id 3 inside executor 2. -/
def stateC3 : ConsoleState :=
  { exampleState with
    executors := [exampleExecutor [exampleCue 3 []],
                  exampleExecutor [exampleCue 3 [], exampleCue 2 []]],
    command_input := "move exec 1 cue 3 to exec 2 cue 1" }

/-- State for the C4 counterexample: two executors exist but the
command addresses executor 5. -/
def stateC4 : ConsoleState :=
  { exampleState with
    executors := [exampleExecutor [exampleCue 1 []], exampleExecutor []],
    command_input := "move exec 5 cue 1 to exec 1 cue 1" }

/-- State for the C7 witness: an unparseable command line. -/
def stateC7 : ConsoleState :=
  { exampleState with command_input := "zorp" }

/-- Executor for the C5 witness: empty cue list, fader at 3/4. -/
def executorC5 : Executor := { exampleExecutor [] with fader_level := 3 / 4 }

/-- An active playback of track 7 whose source has run out, configured
to Follow. -/
def playbackC9 : ActivePlayback :=
  { track_id := 7, player_paused := false, player_empty := true,
    player_volume := 1, volume := 1, master_volume := 1, action := .Follow }

/-- Audio engine holding only the exhausted Follow playback. -/
def engineC9 : AudioEngine := { active_players := [playbackC9], ended_tracks := [] }

/-- A two-track playlist: track 7 (Follow) then track 8. -/
def tracksC9 : List AudioTrack :=
  [{ id := 7, name := "", file_path := "", fade_in := 0, fade_out := 0,
     start_point := 0, end_point := none, volume := 1, duration := 0, action := .Follow },
   { id := 8, name := "", file_path := "", fade_in := 0, fade_out := 0,
     start_point := 0, end_point := none, volume := 1, duration := 0, action := .None }]

end QGui

namespace QGui

/-! ## Theorems -/

/-- C7: for every input string, parsing totally returns either a
command or a classified error, and when parsing fails the only state
change made by `execute_console_command` is the recorded error message:
the resulting state is the input state with `command_error` set, so the
buffer, executors, fixtures, master dimmer and command history are
untouched. -/
theorem C7_parse_error_leaves_state_untouched (s : ConsoleState) :
    ((∃ c, ConsoleCommand.parse s.command_input = .ok c) ∨
      (∃ e, ConsoleCommand.parse s.command_input = .error e)) ∧
    ∀ err, ConsoleCommand.parse s.command_input = .error err →
      execute_console_command s = some { s with command_error := some err.toMessage } := by
  constructor
  · cases h : ConsoleCommand.parse s.command_input with
    | ok c => exact .inl ⟨c, rfl⟩
    | error e => exact .inr ⟨e, rfl⟩
  · intro err h
    unfold execute_console_command
    simp only [h]

/-- Witness for C7: the unknown command line of `stateC7` leaves
everything but the error message unchanged. -/
theorem C7_witness :
    execute_console_command stateC7 =
      some { stateC7 with command_error := some "Unknown command: zorp" } := by
  have h := (C7_parse_error_leaves_state_untouched stateC7).2
    (ConsoleError.UnknownCommand "zorp") (by rfl)
  exact h

/-- C10: when the file cannot be opened or decoded, `AudioEngine::play`
returns the error and adds no playback, but the prior playback of the
same track id has already been removed by the leading `stop`: the
resulting engine is exactly `stop track.id` of the input engine, whose
active set is the input's with every entry of that id filtered out, and
the track no longer reports as playing. -/
theorem C10_play_error_still_stops_old (e : AudioEngine) (track : AudioTrack)
    (mv : ℚ) (msg : String) :
    (e.play track mv (.error msg)).1 = .error msg ∧
    (e.play track mv (.error msg)).2 = e.stop track.id ∧
    (e.stop track.id).active_players =
      e.active_players.filter (fun p => ¬ p.track_id = track.id) ∧
    (e.play track mv (.error msg)).2.is_playing track.id = false := by
  refine ⟨rfl, rfl, rfl, ?_⟩
  show (e.stop track.id).is_playing track.id = false
  unfold AudioEngine.stop AudioEngine.is_playing
  simp only []
  induction e.active_players with
  | nil => rfl
  | cons p ps ih =>
    by_cases h : p.track_id = track.id
    · simpa [List.filter_cons, h] using ih
    · simpa [List.filter_cons, h] using ih

/-- C8, evaluation at the failing input: an integer OSC argument of 50
on the master-volume address sets the master volume to 0 (Rust integer
division `50 / 100`), not to the fraction 0.5 the claim states, and
likewise for the master-dimmer address. -/
theorem C8_integer_argument_truncates :
    (handle_osc_master "/MasterVolume" [OscType.Int 50] exampleState).master_volume = 0 ∧
    (handle_osc_master "/MasterDMX" [OscType.Int 50] exampleState).master_dimmer = 0 ∧
    ¬ ((0 : ℚ) = 50 / 100) := by
  have h : ((50 : ℤ) / 100) = 0 := by decide
  refine ⟨?_, ?_, by norm_num⟩
  · show ((50 / 100 : ℤ) : ℚ) = 0
    rw [h]; exact Int.cast_zero
  · show ((50 / 100 : ℤ) : ℚ) = 0
    rw [h]; exact Int.cast_zero

/-- Counterexample to C1 as stated: with master dimmer 0.5 and a
buffer override of 200 on channel 1, the transmitted value is 200, not
100 — the master dimmer is not applied to buffer-overridden channels,
because the code scales inside the executor loop and writes the buffer
afterwards. -/
theorem C1_counterexample :
    (mixChans 0 stateC1).map (fun f => f.get? 0) = some (some 200) ∧
    (200 : Nat) ≠ 100 := by
  exact ⟨by rfl, by decide⟩

/-- Counterexample to C3 as stated: moving cue id 3 from executor 1 to
executor 2 (destination id 1, absent) where executor 2 holds ids
[3, 2]: the forward shift turns them into [4, 3] and inserting the
moved cue yields [3, 4, 3] — executor 2 ends up with two cues of id 3,
violating the claimed uniqueness. -/
theorem C3_counterexample :
    (execute_console_command stateC3).map
        (fun s => s.executors.map (fun e => e.cue_list.map Cue.id)) =
      some [[], [3, 4, 3]] ∧
    ¬ ([3, 4, 3] : List Nat).Nodup := by
  exact ⟨by rfl, by decide⟩

/-- Counterexample to C4 as stated: with two executors, the command
`move exec 5 cue 1 to exec 1 cue 1` indexes `executors[4]` out of
bounds and panics (modelled as `none`), so the operation is not total
in the executor numbers. -/
theorem C4_counterexample : execute_console_command stateC4 = none := by rfl

/-- C5: `update_fade` realises the fade state machine.  With an empty
cue list, or when no fade is in progress once the flash-up gesture has
been accounted for, the output level equals the raw fader level.  With
a fade in progress (flag set, or freshly started by flash-up) whose
active cue has fade time ≤ 0, the fade ends immediately with output =
fader level.  Otherwise the output is
`min(elapsed / fade_time, 1) × fader_level`, and once that progress
reaches 1 the fading flag clears and the output snaps exactly to the
fader level. -/
theorem C5_update_fade_state_machine (e : Executor) (now : ℚ) :
    (e.cue_list = [] →
      ∃ e2, e.update_fade now = some e2 ∧ e2.current_output_level = e.fader_level) ∧
    (e.is_fading = false → ¬ (e.last_fader_level = 0 ∧ e.fader_level ≠ 0) →
      ∃ e2, e.update_fade now = some e2 ∧ e2.current_output_level = e.fader_level ∧
        e2.is_fading = false) ∧
    (∀ cue, (e.is_fading = true ∨ (e.last_fader_level = 0 ∧ e.fader_level ≠ 0)) →
      e.cue_list.get? e.current_cue_index = some cue → cue.fade_time ≤ 0 →
      e.cue_list ≠ [] →
      ∃ e2, e.update_fade now = some e2 ∧ e2.current_output_level = e.fader_level ∧
        e2.is_fading = false) ∧
    (∀ cue, e.is_fading = true → ¬ (e.last_fader_level = 0 ∧ e.fader_level ≠ 0) →
      e.cue_list.get? e.current_cue_index = some cue → 0 < cue.fade_time →
      e.cue_list ≠ [] →
      ∃ e2, e.update_fade now = some e2 ∧
        e2.current_output_level =
          min ((now - e.fade_start_time) / cue.fade_time) 1 * e.fader_level ∧
        (1 ≤ min ((now - e.fade_start_time) / cue.fade_time) 1 →
          e2.is_fading = false ∧ e2.current_output_level = e.fader_level) ∧
        (min ((now - e.fade_start_time) / cue.fade_time) 1 < 1 →
          e2.is_fading = true)) := by
  refine ⟨?_, ?_, ?_, ?_⟩
  · intro hempty
    by_cases hf : (e.last_fader_level = 0 ∧ e.fader_level ≠ 0) <;>
      simp [Executor.update_fade, hf, hempty]
  · intro h1 h2
    simp [Executor.update_fade, h1, h2]
  · intro cue hfade hcue hft hne
    have hemp : e.cue_list.isEmpty = false := by
      cases h : e.cue_list with
      | nil => exact absurd h hne
      | cons a l => rfl
    have hcue2 : e.cue_list[e.current_cue_index]? = some cue := by
      simpa [List.get?_eq_getElem?] using hcue
    by_cases hf : (e.last_fader_level = 0 ∧ e.fader_level ≠ 0)
    · simp [Executor.update_fade, hf, hemp, hcue2, hft, not_lt.2 hft]
    · have hif : e.is_fading = true := hfade.resolve_right hf
      simp [Executor.update_fade, hf, hif, hemp, hcue2, hft, not_lt.2 hft]
  · intro cue hif hf hcue hft hne
    have hemp : e.cue_list.isEmpty = false := by
      cases h : e.cue_list with
      | nil => exact absurd h hne
      | cons a l => rfl
    have hcue2 : e.cue_list[e.current_cue_index]? = some cue := by
      simpa [List.get?_eq_getElem?] using hcue
    by_cases hp : 1 ≤ min ((now - e.fade_start_time) / cue.fade_time) 1
    · have hq : min ((now - e.fade_start_time) / cue.fade_time) 1 = 1 :=
        le_antisymm (min_le_right _ _) hp
      simp [Executor.update_fade, hf, hif, hemp, hcue2, not_le.2 hft, hp, hq]
    · simp [Executor.update_fade, hf, hif, hemp, hcue2, not_le.2 hft, hp, le_of_not_le hp]

/-- Witness for C5: the empty-cue-list executor with fader at 3/4
updates to output level exactly 3/4. -/
theorem C5_witness :
    ∃ e2, executorC5.update_fade 10 = some e2 ∧ e2.current_output_level = 3 / 4 := by
  simpa using (C5_update_fade_state_machine executorC5 10).1 rfl

/-- The channel list of an insert-or-update: unchanged when the channel
was present, otherwise extended by it. -/
theorem chans_bufInsertOrUpdate (b : List DMXBufferValue) (ch v : Nat) :
    (bufInsertOrUpdate b ch v).map DMXBufferValue.chan =
      if ch ∈ b.map DMXBufferValue.chan then b.map DMXBufferValue.chan
      else b.map DMXBufferValue.chan ++ [ch] := by
  induction b with
  | nil => simp [bufInsertOrUpdate]
  | cons hd tl ih =>
    by_cases h : hd.chan = ch
    · simp [bufInsertOrUpdate, h]
    · simp [bufInsertOrUpdate, h, ih]
      by_cases hm : ∃ a ∈ tl, a.chan = ch
      · simp [hm]
      · simp [hm, Ne.symm h]

/-- Insert-or-update preserves channel uniqueness. -/
theorem nodup_bufInsertOrUpdate (b : List DMXBufferValue) (ch v : Nat)
    (h : (b.map DMXBufferValue.chan).Nodup) :
    ((bufInsertOrUpdate b ch v).map DMXBufferValue.chan).Nodup := by
  rw [chans_bufInsertOrUpdate]
  by_cases hm : ch ∈ b.map DMXBufferValue.chan
  · simpa [hm] using h
  · simp [hm]
    exact List.Nodup.append h (List.nodup_singleton ch) (by simpa using hm)

/-- After an insert-or-update on a duplicate-free buffer, the entries
for that channel are exactly the one just written. -/
theorem filter_bufInsertOrUpdate (b : List DMXBufferValue) (ch v : Nat)
    (h : (b.map DMXBufferValue.chan).Nodup) :
    (bufInsertOrUpdate b ch v).filter (fun x => x.chan = ch) = [⟨ch, v⟩] := by
  induction b with
  | nil => simp [bufInsertOrUpdate]
  | cons hd tl ih =>
    by_cases hc : hd.chan = ch
    · simp only [bufInsertOrUpdate, hc, if_pos rfl]
      have hnotin : ch ∉ tl.map DMXBufferValue.chan := by
        rw [← hc]; exact (List.nodup_cons.1 (by simpa using h)).1
      have : tl.filter (fun x => x.chan = ch) = [] := by
        rw [List.filter_eq_nil_iff]
        intro a ha
        simp only [decide_eq_true_eq]
        intro hac
        exact hnotin (hac ▸ List.mem_map_of_mem DMXBufferValue.chan ha)
      simp [this]
    · simp only [bufInsertOrUpdate, hc, if_neg hc]
      have h2 : (tl.map DMXBufferValue.chan).Nodup := (List.nodup_cons.1 (by simpa using h)).2
      simp [List.filter_cons, hc, ih h2]

/-- A fold whose steps preserve channel uniqueness preserves it. -/
theorem nodup_foldl_preserve {β : Type} (g : List DMXBufferValue → β → List DMXBufferValue)
    (hg : ∀ acc x, (acc.map DMXBufferValue.chan).Nodup →
      ((g acc x).map DMXBufferValue.chan).Nodup) :
    ∀ (L : List β) (b : List DMXBufferValue),
      (b.map DMXBufferValue.chan).Nodup → ((L.foldl g b).map DMXBufferValue.chan).Nodup := by
  intro L
  induction L with
  | nil => intro b hb; simpa using hb
  | cons x xs ih => intro b hb; exact ih _ (hg b x hb)

/-- The `DimFixture` branch preserves channel uniqueness. -/
theorem dimFixture_buffer_nodup (s : ConsoleState) (cmd : ConsoleCommand)
    (fid val : Nat) (h : (s.buffer.map DMXBufferValue.chan).Nodup) :
    (((dimFixture s cmd fid val).buffer).map DMXBufferValue.chan).Nodup := by
  unfold dimFixture
  split
  · simpa using h
  · dsimp only
    split
    · exact nodup_foldl_preserve _ (fun acc x ha => nodup_bufInsertOrUpdate _ _ _ ha) _ _ h
    · exact nodup_bufInsertOrUpdate _ _ _ h

/-- The `SetFixtureColor` branch preserves channel uniqueness. -/
theorem setFixtureColor_buffer_nodup (s : ConsoleState) (cmd : ConsoleCommand)
    (fid r g b w : Nat) (h : (s.buffer.map DMXBufferValue.chan).Nodup) :
    (((setFixtureColor s cmd fid r g b w).buffer).map DMXBufferValue.chan).Nodup := by
  unfold setFixtureColor
  split
  · simpa using h
  · dsimp only
    split
    · refine nodup_foldl_preserve _ ?_ _ _ h
      intro acc x ha
      rcases x with ⟨ct, bv⟩
      cases ct <;> first
        | exact ha
        | exact nodup_bufInsertOrUpdate _ _ _ ha
    · simpa using h

/-- C6: on a buffer with at most one entry per channel, every console
command preserves that invariant (insert-or-update replaces instead of
duplicating), and applying `chan 5 at 200` then `chan 5 at 10` leaves
exactly one entry for channel 5, holding value 10. -/
theorem C6_buffer_unique (s : ConsoleState)
    (h : (s.buffer.map DMXBufferValue.chan).Nodup) :
    (∀ s2, execute_console_command s = some s2 →
      (s2.buffer.map DMXBufferValue.chan).Nodup) ∧
    (∀ s1 s2,
      execute_console_command { s with command_input := "chan 5 at 200" } = some s1 →
      execute_console_command { s1 with command_input := "chan 5 at 10" } = some s2 →
      s2.buffer.filter (fun v => v.chan = 5) = [⟨5, 10⟩] ∧
      (s2.buffer.map DMXBufferValue.chan).Nodup) := by
  constructor
  · intro s2 h2
    unfold execute_console_command at h2
    dsimp only at h2
    cases hp : ConsoleCommand.parse s.command_input with
    | error e =>
      rw [hp] at h2
      simp only [Option.some.injEq] at h2
      subst h2
      simpa using h
    | ok cmd =>
      rw [hp] at h2
      cases cmd with
      | Blackout =>
        simp only [Option.some.injEq] at h2; subst h2; simpa using h
      | Clear =>
        simp only [Option.some.injEq] at h2; subst h2; simp
      | DimChannel ch v =>
        simp only [Option.some.injEq] at h2; subst h2
        exact nodup_bufInsertOrUpdate _ _ _ (by simpa using h)
      | DimFixture fid v =>
        simp only [Option.some.injEq] at h2; subst h2
        exact dimFixture_buffer_nodup _ _ _ _ (by simpa using h)
      | SetFixtureColor fid r g b w =>
        simp only [Option.some.injEq] at h2; subst h2
        exact setFixtureColor_buffer_nodup _ _ _ _ _ _ _ (by simpa using h)
      | MoveExecCueToExecCue a x b y =>
        dsimp only at h2
        cases hm : moveExecCueToExecCue s.executors a x b y with
        | none => rw [hm] at h2; simp at h2
        | some l =>
          rw [hm] at h2
          simp only [Option.map_some', Option.some.injEq] at h2
          subst h2
          simpa using h
      | MoveExecCueDirection a x d =>
        dsimp only at h2
        cases hm : moveExecCueDirection s.executors a x d with
        | none => rw [hm] at h2; simp at h2
        | some l =>
          rw [hm] at h2
          simp only [Option.map_some', Option.some.injEq] at h2
          subst h2
          simpa using h
  · intro s1 s2 h1 h2
    have e1 : (some { s with
                      command_input := "chan 5 at 200",
                      command_error := none,
                      buffer := bufInsertOrUpdate s.buffer 5 200,
                      command_history :=
                        s.command_history ++ [ConsoleCommand.DimChannel 5 200] } :
        Option ConsoleState) = some s1 := h1
    simp only [Option.some.injEq] at e1
    subst e1
    have e2 : (some { s with
                      command_input := "chan 5 at 10",
                      command_error := none,
                      buffer := bufInsertOrUpdate (bufInsertOrUpdate s.buffer 5 200) 5 10,
                      command_history :=
                        (s.command_history ++ [ConsoleCommand.DimChannel 5 200]) ++
                          [ConsoleCommand.DimChannel 5 10] } :
        Option ConsoleState) = some s2 := h2
    simp only [Option.some.injEq] at e2
    subst e2
    have hn : ((bufInsertOrUpdate s.buffer 5 200).map DMXBufferValue.chan).Nodup :=
      nodup_bufInsertOrUpdate _ _ _ h
    exact ⟨filter_bufInsertOrUpdate _ _ _ hn, nodup_bufInsertOrUpdate _ _ _ hn⟩

/-- Witness for C6: from the empty-buffer state, the two commands leave
exactly the single entry (channel 5, value 10). -/
theorem C6_witness :
    ∃ s1 s2,
      execute_console_command { exampleState with command_input := "chan 5 at 200" } = some s1 ∧
      execute_console_command { s1 with command_input := "chan 5 at 10" } = some s2 ∧
      s2.buffer.filter (fun v => v.chan = 5) = [⟨5, 10⟩] := by
  have h := (C6_buffer_unique exampleState (by decide)).2
  refine ⟨_, _, rfl, rfl, ?_⟩
  exact (h _ _ rfl rfl).1

/-- The non-interpolating write preserves the frame length. -/
theorem writeScaled_length (out master : ℚ) :
    ∀ (levels : List Nat) (idx : Nat) (frame f : List Nat),
      writeScaled out master levels idx frame = some f → f.length = frame.length := by
  intro levels
  induction levels with
  | nil =>
    intro idx frame f h
    simp only [writeScaled, Option.some.injEq] at h
    rw [← h]
  | cons v vs ih =>
    intro idx frame f h
    unfold writeScaled at h
    split at h
    · have h2 := ih (idx + 1) _ f h
      rw [h2, List.length_set]
    · cases h

/-- The interpolating write preserves the frame length. -/
theorem writeInterp_length (progress master : ℚ) :
    ∀ (levels prev : List Nat) (idx : Nat) (frame f : List Nat),
      writeInterp progress master levels prev idx frame = some f → f.length = frame.length := by
  intro levels
  induction levels with
  | nil =>
    intro prev idx frame f h
    simp only [writeInterp, Option.some.injEq] at h
    rw [← h]
  | cons v vs ih =>
    intro prev idx frame f h
    cases prev with
    | nil => cases h
    | cons p ps =>
      unfold writeInterp at h
      split at h
      · have h2 := ih ps (idx + 1) _ f h
        rw [h2, List.length_set]
      · cases h

/-- One executor write preserves the frame length. -/
theorem execWrite_length (master : ℚ) (e : Executor) (frame f : List Nat)
    (h : execWrite master e frame = some f) : f.length = frame.length := by
  unfold execWrite at h
  dsimp only at h
  repeat' split at h
  all_goals first
    | (simp only [Option.some.injEq] at h; rw [← h])
    | (exact writeScaled_length _ _ _ _ _ _ h)
    | (exact writeInterp_length _ _ _ _ _ _ _ h)

/-- The executor phase preserves the frame length. -/
theorem mixExecPhase_length (now master : ℚ) :
    ∀ (es : List Executor) (frame : List Nat) (l : List Executor) (f : List Nat),
      mixExecPhase now master es frame = some (l, f) → f.length = frame.length := by
  intro es
  induction es with
  | nil =>
    intro frame l f h
    simp only [mixExecPhase, Option.some.injEq, Prod.mk.injEq] at h
    rw [← h.2]
  | cons e es ih =>
    intro frame l f h
    unfold mixExecPhase at h
    split at h
    · cases h
    · rename_i e1 he1
      split at h
      · cases h
      · rename_i frame1 hw
        split at h
        · cases h
        · rename_i l2 f2 hp
          simp only [Option.some.injEq, Prod.mk.injEq] at h
          obtain ⟨-, h2⟩ := h
          subst h2
          rw [ih frame1 l2 f2 hp]
          exact execWrite_length _ _ _ _ hw

/-- Buffer application leaves indices addressed by no entry alone. -/
theorem applyBuffer_get?_untouched :
    ∀ (buffer : List DMXBufferValue) (frame : List Nat) (i : Nat),
      (∀ v ∈ buffer, v.chan - 1 ≠ i) →
      (applyBuffer buffer frame).get? i = frame.get? i := by
  intro buffer
  induction buffer with
  | nil => intro frame i h; rfl
  | cons b bs ih =>
    intro frame i h
    show (applyBuffer bs (frame.set (b.chan - 1) b.dmx)).get? i = frame.get? i
    rw [ih _ i (fun v hv => h v (List.mem_cons_of_mem b hv))]
    exact List.get?_set_ne b.dmx _ (h b (List.mem_cons_self b bs))

/-- For a 1-based, duplicate-free buffer, every in-range entry ends up
verbatim in the frame. -/
theorem applyBuffer_get? :
    ∀ (buffer : List DMXBufferValue) (frame : List Nat),
      (∀ v ∈ buffer, 1 ≤ v.chan) →
      ((buffer.map DMXBufferValue.chan).Nodup) →
      ∀ v ∈ buffer, v.chan ≤ frame.length →
      (applyBuffer buffer frame).get? (v.chan - 1) = some v.dmx := by
  intro buffer
  induction buffer with
  | nil => intro frame _ _ v hv; cases hv
  | cons b bs ih =>
    intro frame h1 hnd v hv hle
    rcases List.mem_cons.1 hv with hb | hbs
    · subst hb
      show (applyBuffer bs (frame.set (v.chan - 1) v.dmx)).get? (v.chan - 1) = some v.dmx
      have hv1 : 1 ≤ v.chan := h1 v hv
      rw [applyBuffer_get?_untouched bs _ _ ?_]
      · exact List.get?_set_eq_of_lt v.dmx (by omega)
      · intro w hw
        have hwc : w.chan ≠ v.chan := by
          intro heq
          exact (List.nodup_cons.1 (by simpa using hnd)).1
            (heq ▸ List.mem_map_of_mem DMXBufferValue.chan hw)
        have hw1 : 1 ≤ w.chan := h1 w (List.mem_cons_of_mem _ hw)
        have hv1 : 1 ≤ v.chan := h1 v hv
        omega
    · show (applyBuffer bs (frame.set (b.chan - 1) b.dmx)).get? (v.chan - 1) = some v.dmx
      refine ih _ (fun w hw => h1 w (List.mem_cons_of_mem _ hw))
        ((List.nodup_cons.1 (by simpa using hnd)).2) v hbs ?_
      rw [List.length_set]
      exact hle

/-- C2: in every mixing tick, for every entry of the override buffer
(1-based, duplicate-free channels) whose channel is within the frame,
the mixed output frame holds exactly the buffer value at that channel
position, regardless of what the executor phase wrote there. -/
theorem C2_buffer_overrides_win (now : ℚ) (s : ConsoleState) (frame : List Nat)
    (hmix : mixChans now s = some frame)
    (h1 : ∀ v ∈ s.buffer, 1 ≤ v.chan)
    (hnd : (s.buffer.map DMXBufferValue.chan).Nodup) :
    ∀ v ∈ s.buffer, v.chan ≤ DMX_CHANNELS → frame.get? (v.chan - 1) = some v.dmx := by
  intro v hv hle
  unfold mixChans at hmix
  cases hm : mixExecPhase now s.master_dimmer s.executors (List.replicate DMX_CHANNELS 0) with
  | none => rw [hm] at hmix; cases hmix
  | some p =>
    obtain ⟨execs, f0⟩ := p
    rw [hm] at hmix
    simp only [Option.some.injEq] at hmix
    subst hmix
    have hlen : f0.length = DMX_CHANNELS := by
      have h2 := mixExecPhase_length now s.master_dimmer s.executors _ execs f0 hm
      simpa using h2
    exact applyBuffer_get? s.buffer f0 h1 hnd v hv (by rw [hlen]; exact hle)

/-- Witness for C2: in `stateC2` the mixed frame carries the buffer
value 7 at channel 10 (index 9). -/
theorem C2_witness :
    ∃ frame, mixChans 0 stateC2 = some frame ∧ frame.get? 9 = some 7 := by
  cases hm : mixChans 0 stateC2 with
  | none => exact absurd hm (by decide)
  | some frame =>
    refine ⟨frame, rfl, ?_⟩
    exact C2_buffer_overrides_win 0 stateC2 frame hm (by decide) (by decide)
      ⟨10, 7⟩ (by decide) (by decide)

/-- The newly ended entries of one `update` are exactly the non-paused,
source-exhausted playbacks, in order, as (track id, action) pairs. -/
theorem updateRetain_ended (l : List ActivePlayback) :
    (updateRetain l).2 =
      (l.filter (fun p => !p.player_paused && p.player_empty)).map
        (fun p => (p.track_id, p.action)) := by
  induction l with
  | nil => rfl
  | cons p ps ih =>
    by_cases hp : p.player_paused
    · simp [updateRetain, hp, ih]
    · by_cases he : p.player_empty
      · simp [updateRetain, hp, he, ih]
      · simp [updateRetain, hp, he, ih]

/-- Every playback kept by `update` is paused or not exhausted. -/
theorem updateRetain_kept (l : List ActivePlayback) :
    ∀ p ∈ (updateRetain l).1, p.player_paused = true ∨ p.player_empty = false := by
  induction l with
  | nil => intro p hp; cases hp
  | cons q qs ih =>
    intro p hp
    by_cases hq : q.player_paused
    · rw [show updateRetain (q :: qs) =
        (q :: (updateRetain qs).1, (updateRetain qs).2) from by simp [updateRetain, hq]] at hp
      rcases List.mem_cons.1 hp with h | h
      · exact .inl (h ▸ hq)
      · exact ih p h
    · by_cases he : q.player_empty
      · rw [show updateRetain (q :: qs) =
          ((updateRetain qs).1, (q.track_id, q.action) :: (updateRetain qs).2) from by
            simp [updateRetain, hq, he]] at hp
        exact ih p hp
      · rw [show updateRetain (q :: qs) =
          ({ q with player_volume := q.volume * q.master_volume } :: (updateRetain qs).1,
            (updateRetain qs).2) from by simp [updateRetain, hq, he]] at hp
        rcases List.mem_cons.1 hp with h | h
        · right; rw [h]; simpa using he
        · exact ih p h

/-- A table of paused-or-unexhausted playbacks produces no ended
entries. -/
theorem updateRetain_clean (l : List ActivePlayback)
    (h : ∀ p ∈ l, p.player_paused = true ∨ p.player_empty = false) :
    (updateRetain l).2 = [] := by
  rw [updateRetain_ended]
  have : l.filter (fun p => !p.player_paused && p.player_empty) = [] := by
    rw [List.filter_eq_nil_iff]
    intro p hp
    rcases h p hp with h1 | h1 <;> simp [h1]
  rw [this]; rfl

/-- A found index lies within the list. -/
theorem findIdx?_lt_length {α : Type} {p : α → Bool} :
    ∀ {l : List α} {i : Nat}, l.findIdx? p = some i → i < l.length := by
  intro l
  induction l with
  | nil => intro i h; cases h
  | cons a as ih =>
    intro i h
    rw [List.findIdx?_cons] at h
    by_cases hp : p a
    · simp [hp] at h
      simp only [List.length_cons]
      omega
    · simp [hp] at h
      obtain ⟨j, hj, hji⟩ := h
      have := ih hj
      simp only [List.length_cons]
      omega

/-- C9: when exactly one active playback — non-paused, exhausted, with
action Follow and track id `t` — ends in this tick, `update` moves it
into the ended queue, `get_ended_tracks` drains exactly that entry, the
caller's Follow handling starts the next track exactly once, and an
immediately following tick with nothing new drains an empty queue and
starts nothing. -/
theorem C9_follow_exactly_once (e : AudioEngine) (tracks : List AudioTrack)
    (idx0 t i : Nat)
    (h0 : e.ended_tracks = [])
    (hend : (e.active_players.filter (fun p => !p.player_paused && p.player_empty)).map
        (fun p => (p.track_id, p.action)) = [(t, AudioAction.Follow)])
    (hfind : tracks.findIdx? (fun tr => tr.id = t) = some i) :
    (e.update.get_ended_tracks.1 = [(t, AudioAction.Follow)]) ∧
    ((e.update.get_ended_tracks.2.active_players.filter
        (fun p => !p.player_paused && p.player_empty)) = []) ∧
    ((handleEndedTracks tracks idx0 e.update.get_ended_tracks.1).1 =
      [(i + 1) % tracks.length]) ∧
    (e.update.get_ended_tracks.2.update.get_ended_tracks.1 = []) ∧
    (∀ j, (handleEndedTracks tracks j
        e.update.get_ended_tracks.2.update.get_ended_tracks.1).1 = []) := by
  have hlen : i < tracks.length := findIdx?_lt_length hfind
  have hp1 : e.update.get_ended_tracks.1 = [(t, AudioAction.Follow)] := by
    show e.update.ended_tracks = _
    show e.ended_tracks ++ (updateRetain e.active_players).2 = _
    rw [h0, updateRetain_ended, hend]
    rfl
  have hkept : ∀ p ∈ (updateRetain e.active_players).1,
      p.player_paused = true ∨ p.player_empty = false := updateRetain_kept _
  have hp2 : (e.update.get_ended_tracks.2.active_players.filter
      (fun p => !p.player_paused && p.player_empty)) = [] := by
    show ((updateRetain e.active_players).1.filter _) = []
    rw [List.filter_eq_nil_iff]
    intro p hp
    rcases hkept p hp with h1 | h1 <;> simp [h1]
  have hmod : (i + 1) % tracks.length < tracks.length :=
    Nat.mod_lt _ (by omega)
  have hget : tracks[(i + 1) % tracks.length]? =
      some (tracks.get ⟨(i + 1) % tracks.length, hmod⟩) := by
    rw [← List.get?_eq_getElem?]
    exact List.get?_eq_get hmod
  have hp3 : (handleEndedTracks tracks idx0 e.update.get_ended_tracks.1).1 =
      [(i + 1) % tracks.length] := by
    rw [hp1]
    unfold handleEndedTracks
    simp [hfind, hget]
  have hp4 : e.update.get_ended_tracks.2.update.get_ended_tracks.1 = [] := by
    show e.update.get_ended_tracks.2.update.ended_tracks = _
    show e.update.get_ended_tracks.2.ended_tracks ++
      (updateRetain e.update.get_ended_tracks.2.active_players).2 = _
    have h1 : e.update.get_ended_tracks.2.ended_tracks = [] := rfl
    have h2 : (updateRetain e.update.get_ended_tracks.2.active_players).2 = [] :=
      updateRetain_clean _ hkept
    rw [h1, h2]
    rfl
  refine ⟨hp1, hp2, hp3, hp4, ?_⟩
  intro j
  rw [hp4]
  rfl

/-- Witness for C9: the concrete engine with the exhausted Follow
playback of track 7 over the two-track playlist advances to index 1
exactly once, and the second tick returns nothing. -/
theorem C9_witness :
    ((engineC9.update.get_ended_tracks.1 = [(7, AudioAction.Follow)]) ∧
      (handleEndedTracks tracksC9 0 engineC9.update.get_ended_tracks.1).1 = [1]) ∧
    engineC9.update.get_ended_tracks.2.update.get_ended_tracks.1 = [] := by
  have h := C9_follow_exactly_once engineC9 tracksC9 0 7 0 (by rfl) (by rfl) (by rfl)
  exact ⟨⟨h.1, h.2.2.1⟩, h.2.2.2.1⟩

/-- The non-interpolating write leaves indices before its start
untouched. -/
theorem writeScaled_get?_lt (out master : ℚ) :
    ∀ (levels : List Nat) (idx : Nat) (frame f : List Nat),
      writeScaled out master levels idx frame = some f →
      ∀ j, j < idx → f.get? j = frame.get? j := by
  intro levels
  induction levels with
  | nil =>
    intro idx frame f h j hj
    simp only [writeScaled, Option.some.injEq] at h
    rw [← h]
  | cons v vs ih =>
    intro idx frame f h j hj
    unfold writeScaled at h
    split at h
    · rw [ih (idx + 1) _ f h j (by omega)]
      exact List.get?_set_ne _ _ (by omega)
    · cases h

/-- The non-interpolating write stores, at each level index, the level
scaled by the output level and then the master dimmer, truncated as the
Rust `as u8` cast. -/
theorem writeScaled_get?_at (out master : ℚ) :
    ∀ (levels : List Nat) (idx : Nat) (frame f : List Nat),
      writeScaled out master levels idx frame = some f →
      ∀ k, (hk : k < levels.length) →
        f.get? (idx + k) =
          some (u8OfRat (((levels.get ⟨k, hk⟩ : ℚ) * out) * master)) := by
  intro levels
  induction levels with
  | nil =>
    intro idx frame f h k hk
    cases hk
  | cons v vs ih =>
    intro idx frame f h k hk
    unfold writeScaled at h
    split at h
    · rename_i hlen
      cases k with
      | zero =>
        rw [Nat.add_zero]
        rw [writeScaled_get?_lt out master vs (idx + 1) _ f h idx (by omega)]
        exact List.get?_set_eq_of_lt _ hlen
      | succ k2 =>
        rw [show idx + (k2 + 1) = (idx + 1) + k2 by omega]
        exact ih (idx + 1) _ f h k2 (by simpa using hk)
    · cases h

/-- C1 as amended: the master dimmer is applied inside the executor
write — each executor-driven channel is
`truncate((level × current_output_level) × master_dimmer)`, so a
pre-scale value of 200 under master dimmer 0.5 transmits 100 — while
buffer overrides are applied afterwards and transmit their raw value,
unscaled by the master dimmer. -/
theorem C1_amended_master_dimmer_in_executor_phase :
    (∀ (out master : ℚ) (levels frame f : List Nat),
      writeScaled out master levels 0 frame = some f →
      ∀ k, (hk : k < levels.length) →
        f.get? k = some (u8OfRat (((levels.get ⟨k, hk⟩ : ℚ) * out) * master))) ∧
    (∀ (now : ℚ) (s : ConsoleState) (frame : List Nat),
      mixChans now s = some frame →
      (∀ v ∈ s.buffer, 1 ≤ v.chan) →
      (s.buffer.map DMXBufferValue.chan).Nodup →
      ∀ v ∈ s.buffer, v.chan ≤ DMX_CHANNELS →
        frame.get? (v.chan - 1) = some v.dmx) ∧
    (u8OfRat (((200 : ℚ) * 1) * (1 / 2)) = 100) := by
  refine ⟨?_, ?_, ?_⟩
  · intro out master levels frame f h k hk
    have h2 := writeScaled_get?_at out master levels 0 frame f h k hk
    simpa using h2
  · intro now s frame hmix h1 hnd v hv hle
    unfold mixChans at hmix
    cases hm : mixExecPhase now s.master_dimmer s.executors (List.replicate DMX_CHANNELS 0) with
    | none => rw [hm] at hmix; cases hmix
    | some p =>
      obtain ⟨execs, f0⟩ := p
      rw [hm] at hmix
      simp only [Option.some.injEq] at hmix
      subst hmix
      have hlen : f0.length = DMX_CHANNELS := by
        have h2 := mixExecPhase_length now s.master_dimmer s.executors _ execs f0 hm
        simpa using h2
      exact applyBuffer_get? s.buffer f0 h1 hnd v hv (by rw [hlen]; exact hle)
  · have hq : ((200 : ℚ) * 1) * (1 / 2) = 100 := by norm_num
    rw [u8OfRat, hq]
    norm_num
    decide

/-- Witness for C1 (amended): in `stateC1` (master dimmer 0.5, buffer
override 200 on channel 1) the transmitted value on channel 1 is the
raw 200. -/
theorem C1_witness :
    ∃ frame, mixChans 0 stateC1 = some frame ∧ frame.get? 0 = some 200 := by
  cases hm : mixChans 0 stateC1 with
  | none => exact absurd hm (by decide)
  | some frame =>
    refine ⟨frame, rfl, ?_⟩
    exact C1_amended_master_dimmer_in_executor_phase.2.1 0 stateC1 frame hm (by decide) (by decide) ⟨1, 200⟩
      (by decide) (by decide)

/-- The forward shift preserves the list length. -/
theorem shiftIdsFrom_length (x : Nat) :
    ∀ (b : Bool) (l : List Cue), (shiftIdsFrom b x l).length = l.length := by
  intro b l
  induction l generalizing b with
  | nil => rfl
  | cons c cs ih => simp [shiftIdsFrom, ih]

/-- A found index carries an element satisfying the predicate. -/
theorem findIdx?_get? {α : Type} {p : α → Bool} :
    ∀ {l : List α} {i : Nat}, l.findIdx? p = some i →
      ∃ x, l.get? i = some x ∧ p x = true := by
  intro l
  induction l with
  | nil => intro i h; cases h
  | cons a as ih =>
    intro i h
    rw [List.findIdx?_cons] at h
    by_cases hp : p a
    · simp [hp] at h
      exact ⟨a, by simp [← h], hp⟩
    · simp [hp] at h
      obtain ⟨j, hj, hji⟩ := h
      obtain ⟨x, hx, hpx⟩ := ih hj
      exact ⟨x, by simpa [← hji] using hx, hpx⟩

/-- `Vec::swap` succeeds on in-bounds indices. -/
theorem listSwap_isSome {α : Type} (l : List α) (i j : Nat)
    (hi : i < l.length) (hj : j < l.length) : ∃ l2, listSwap l i j = some l2 := by
  unfold listSwap
  rw [List.get?_eq_get hi, List.get?_eq_get hj]
  exact ⟨_, rfl⟩

/-- `Vec::insert` succeeds up to the length. -/
theorem listInsertIdx_isSome {α : Type} (n : Nat) (a : α) (l : List α)
    (h : n ≤ l.length) : ∃ l2, listInsertIdx n a l = some l2 := by
  unfold listInsertIdx
  rw [if_pos h]
  exact ⟨_, rfl⟩

/-- Once the collision has been seen, every id is incremented. -/
theorem shiftIdsFrom_true (x : Nat) :
    ∀ (l : List Cue), shiftIdsFrom true x l = l.map (fun c => { c with id := c.id + 1 }) := by
  intro l
  induction l with
  | nil => rfl
  | cons c cs ih => simp [shiftIdsFrom, ih]

/-- The forward shift splits at the first collision: ids before it are
kept, the colliding cue and everything after it are incremented. -/
theorem shiftIdsFrom_of_findIdx? (x : Nat) :
    ∀ (l : List Cue) (k : Nat), l.findIdx? (fun c => c.id = x) = some k →
      shiftIdsFrom false x l =
        l.take k ++ (l.drop k).map (fun c => { c with id := c.id + 1 }) := by
  intro l
  induction l with
  | nil => intro k h; cases h
  | cons c cs ih =>
    intro k h
    rw [List.findIdx?_cons] at h
    by_cases hp : c.id = x
    · simp [hp] at h
      subst h
      simp [shiftIdsFrom, hp, shiftIdsFrom_true]
    · simp [hp] at h
      obtain ⟨j, hj, hjk⟩ := h
      subst hjk
      have hstep : shiftIdsFrom false x (c :: cs) = c :: shiftIdsFrom false x cs := by
        simp [shiftIdsFrom, hp]
      rw [hstep, ih j hj]
      simp [List.take_succ_cons, List.drop_succ_cons]

/-- The destination-id-absent branch of the cue move, non-aliasing
indices, non-empty destination, in-range insert position: the cue is
removed from the source and inserted at position Y-1 of the shifted
destination list. -/
theorem move_dest_absent (executors : List Executor) (A X B Y : Nat)
    (eF eT : Executor) (iF : Nat) (cue : Cue)
    (hidx : A - 1 ≠ B - 1)
    (hgF : executors.get? (A - 1) = some eF)
    (hgT : executors.get? (B - 1) = some eT)
    (hiF : eF.cue_list.findIdx? (fun c => c.id = X) = some iF)
    (hcue : eF.cue_list.get? iF = some cue)
    (hYnone : eT.cue_list.findIdx? (fun c => c.id = Y) = none)
    (hTne : 0 < eT.cue_list.length)
    (hYle : Y - 1 ≤ eT.cue_list.length) :
    moveExecCueToExecCue executors A X B Y =
      some ((executors.set (A - 1) { eF with cue_list := eF.cue_list.eraseIdx iF }).set
        (B - 1)
        { eT with
          cue_list := List.insertIdx (Y - 1) cue (shiftIdsFrom false cue.id eT.cue_list) }) := by
  have hset : (executors.set (A - 1)
      { eF with cue_list := eF.cue_list.eraseIdx iF }).get? (B - 1) = some eT := by
    rw [List.get?_set_ne _ _ hidx, hgT]
  have hlen2 : Y - 1 ≤ (shiftIdsFrom false cue.id eT.cue_list).length := by
    rw [shiftIdsFrom_length]; exact hYle
  unfold moveExecCueToExecCue
  dsimp only
  rw [hgF, hgT]
  dsimp only
  rw [hiF, hYnone]
  dsimp only
  rw [hcue]
  dsimp only
  rw [hset]
  dsimp only
  rw [if_pos hTne]
  unfold listInsertIdx
  rw [if_pos hlen2]

/-- A successful `get?` index is within the list. -/
theorem get?_some_lt_length {α : Type} {l : List α} {n : Nat} {a : α}
    (h : l.get? n = some a) : n < l.length := by
  by_contra hc
  rw [List.get?_eq_none.2 (by omega)] at h
  cases h

/-- When the moved cue id is not in the source list, the move is a
no-op. -/
theorem move_src_absent (executors : List Executor) (A X B Y : Nat)
    (eF eT : Executor)
    (hgF : executors.get? (A - 1) = some eF)
    (hgT : executors.get? (B - 1) = some eT)
    (hiF : eF.cue_list.findIdx? (fun c => c.id = X) = none) :
    moveExecCueToExecCue executors A X B Y = some executors := by
  unfold moveExecCueToExecCue
  dsimp only
  rw [hgF, hgT]
  dsimp only
  rw [hiF]

/-- The same-executor branch (both ids found) is a swap and never
fails. -/
theorem move_swap (executors : List Executor) (A X Y : Nat)
    (eF : Executor) (iF iT : Nat)
    (hgF : executors.get? (A - 1) = some eF)
    (hiF : eF.cue_list.findIdx? (fun c => c.id = X) = some iF)
    (hiT : eF.cue_list.findIdx? (fun c => c.id = Y) = some iT) :
    ∃ l, moveExecCueToExecCue executors A X A Y = some l := by
  obtain ⟨l2, hl2⟩ := listSwap_isSome eF.cue_list iF iT
    (findIdx?_lt_length hiF) (findIdx?_lt_length hiT)
  unfold moveExecCueToExecCue
  dsimp only
  rw [hgF]
  dsimp only
  rw [hiF, hiT]
  dsimp only
  rw [if_pos rfl, hl2]
  exact ⟨_, rfl⟩

/-- The cross-executor exchange branch (destination id found,
non-aliasing indices) never fails. -/
theorem move_exchange (executors : List Executor) (A X B Y : Nat)
    (eF eT : Executor) (iF iT : Nat)
    (hAB : A ≠ B)
    (hidx : A - 1 ≠ B - 1)
    (hgF : executors.get? (A - 1) = some eF)
    (hgT : executors.get? (B - 1) = some eT)
    (hiF : eF.cue_list.findIdx? (fun c => c.id = X) = some iF)
    (hiT : eT.cue_list.findIdx? (fun c => c.id = Y) = some iT) :
    ∃ l, moveExecCueToExecCue executors A X B Y = some l := by
  have hFlt : iF < eF.cue_list.length := findIdx?_lt_length hiF
  have hTlt : iT < eT.cue_list.length := findIdx?_lt_length hiT
  have hAlt : A - 1 < executors.length := get?_some_lt_length hgF
  have hBlt : B - 1 < executors.length := get?_some_lt_length hgT
  obtain ⟨cue, hcue⟩ : ∃ c, eF.cue_list.get? iF = some c :=
    ⟨_, List.get?_eq_get hFlt⟩
  obtain ⟨to_move, hto⟩ : ∃ c, eT.cue_list.get? iT = some c :=
    ⟨_, List.get?_eq_get hTlt⟩
  unfold moveExecCueToExecCue
  dsimp only
  rw [hgF, hgT]
  dsimp only
  rw [hiF, hiT]
  dsimp only
  rw [if_neg hAB, hcue]
  dsimp only
  rw [List.get?_set_ne _ _ hidx, hgT]
  dsimp only
  rw [hto]
  dsimp only
  rw [List.get?_set_eq_of_lt _ (by rw [List.length_set]; exact hBlt)]
  dsimp only
  rw [List.get?_set_ne _ _ (Ne.symm hidx)]
  rw [List.get?_set_ne _ _ (Ne.symm hidx)]
  rw [List.get?_set_eq_of_lt _ hAlt]
  dsimp only
  rw [List.get?_set_eq_of_lt _ (by
    rw [List.length_set, List.length_set, List.length_set]; exact hAlt)]
  dsimp only
  have hlenF : (shiftIdsFrom false to_move.id (eF.cue_list.eraseIdx iF)).length =
      eF.cue_list.length - 1 := by
    rw [shiftIdsFrom_length, List.length_eraseIdx_of_lt hFlt]
  obtain ⟨lF, hlF⟩ := listInsertIdx_isSome iF to_move
    (shiftIdsFrom false to_move.id (eF.cue_list.eraseIdx iF)) (by omega)
  rw [hlF]
  dsimp only
  rw [List.get?_set_ne _ _ hidx]
  rw [List.get?_set_ne _ _ hidx]
  rw [List.get?_set_eq_of_lt _ (by
    rw [List.length_set, List.length_set]; exact hBlt)]
  dsimp only
  have hlenT : (shiftIdsFrom false cue.id (eT.cue_list.eraseIdx iT)).length =
      eT.cue_list.length - 1 := by
    rw [shiftIdsFrom_length, List.length_eraseIdx_of_lt hTlt]
  obtain ⟨lT, hlT⟩ := listInsertIdx_isSome iT cue
    (shiftIdsFrom false cue.id (eT.cue_list.eraseIdx iT)) (by omega)
  rw [hlT]
  exact ⟨_, rfl⟩

/-- The destination-id-absent branch with an empty destination list
appends the cue. -/
theorem move_dest_absent_empty (executors : List Executor) (A X B Y : Nat)
    (eF eT : Executor) (iF : Nat) (cue : Cue)
    (hidx : A - 1 ≠ B - 1)
    (hgF : executors.get? (A - 1) = some eF)
    (hgT : executors.get? (B - 1) = some eT)
    (hiF : eF.cue_list.findIdx? (fun c => c.id = X) = some iF)
    (hcue : eF.cue_list.get? iF = some cue)
    (hYnone : eT.cue_list.findIdx? (fun c => c.id = Y) = none)
    (hTe : eT.cue_list = []) :
    moveExecCueToExecCue executors A X B Y =
      some ((executors.set (A - 1) { eF with cue_list := eF.cue_list.eraseIdx iF }).set
        (B - 1) { eT with cue_list := eT.cue_list ++ [cue] }) := by
  have hset : (executors.set (A - 1)
      { eF with cue_list := eF.cue_list.eraseIdx iF }).get? (B - 1) = some eT := by
    rw [List.get?_set_ne _ _ hidx, hgT]
  unfold moveExecCueToExecCue
  dsimp only
  rw [hgF, hgT]
  dsimp only
  rw [hiF, hYnone]
  dsimp only
  rw [hcue]
  dsimp only
  rw [hset]
  dsimp only
  rw [if_neg (by rw [hTe]; exact Nat.lt_irrefl 0)]

/-- The destination-id-absent branch when both executor numbers hit the
same index: succeeds when the insert position is within the shortened
list or that list is empty. -/
theorem move_same_dest_absent (executors : List Executor) (A X B Y : Nat)
    (eF : Executor) (iF : Nat) (cue : Cue)
    (hidx : B - 1 = A - 1)
    (hgF : executors.get? (A - 1) = some eF)
    (hiF : eF.cue_list.findIdx? (fun c => c.id = X) = some iF)
    (hcue : eF.cue_list.get? iF = some cue)
    (hYnone : eF.cue_list.findIdx? (fun c => c.id = Y) = none)
    (hcase : eF.cue_list.length - 1 = 0 ∨ Y - 1 ≤ eF.cue_list.length - 1) :
    ∃ l, moveExecCueToExecCue executors A X B Y = some l := by
  have hAlt : A - 1 < executors.length := get?_some_lt_length hgF
  have hFlt : iF < eF.cue_list.length := findIdx?_lt_length hiF
  have hset : (executors.set (A - 1)
      { eF with cue_list := eF.cue_list.eraseIdx iF }).get? (B - 1) =
      some { eF with cue_list := eF.cue_list.eraseIdx iF } := by
    rw [hidx]
    exact List.get?_set_eq_of_lt _ hAlt
  have hlenF : (eF.cue_list.eraseIdx iF).length = eF.cue_list.length - 1 :=
    List.length_eraseIdx_of_lt hFlt
  have hgB : executors.get? (B - 1) = some eF := by rw [hidx, hgF]
  unfold moveExecCueToExecCue
  dsimp only
  rw [hgF, hgB]
  dsimp only
  rw [hiF, hYnone]
  dsimp only
  rw [hcue]
  dsimp only
  rw [hset]
  dsimp only
  rcases Nat.eq_zero_or_pos (eF.cue_list.eraseIdx iF).length with h0 | hpos
  · rw [if_neg (by omega)]
    exact ⟨_, rfl⟩
  · rw [if_pos hpos]
    have hYle : Y - 1 ≤ (shiftIdsFrom false cue.id (eF.cue_list.eraseIdx iF)).length := by
      rw [shiftIdsFrom_length, hlenF]
      rcases hcase with h | h
      · omega
      · exact h
    obtain ⟨lT, hlT⟩ := listInsertIdx_isSome (Y - 1) cue _ hYle
    rw [hlT]
    exact ⟨_, rfl⟩

/-- C4 as amended: `move exec A cue X to exec B cue Y` does not panic
provided the 1-based executor numbers address existing executors and,
when executor B lacks a cue with id Y, position Y-1 lies within the
destination list (the list B, or A shortened by one when A = B) or
that list is empty; when B's list is empty the removed cue is appended
to it.  Without these bounds the code indexes or inserts out of range
(see the counterexample). -/
theorem C4_amended_no_panic_in_bounds (s : ConsoleState) (A X B Y : Nat) (eF eT : Executor)
    (hA1 : 1 ≤ A) (hB1 : 1 ≤ B)
    (hgF : s.executors.get? (A - 1) = some eF)
    (hgT : s.executors.get? (B - 1) = some eT)
    (hins : ∀ iF, eF.cue_list.findIdx? (fun c => c.id = X) = some iF →
      eT.cue_list.findIdx? (fun c => c.id = Y) = none →
      (if A = B then eF.cue_list.length - 1 else eT.cue_list.length) = 0 ∨
        Y - 1 ≤ (if A = B then eF.cue_list.length - 1 else eT.cue_list.length)) :
    (∃ l, moveExecCueToExecCue s.executors A X B Y = some l) ∧
    (∀ iF cue, A ≠ B →
      eF.cue_list.findIdx? (fun c => c.id = X) = some iF →
      eF.cue_list.get? iF = some cue →
      eT.cue_list.findIdx? (fun c => c.id = Y) = none →
      eT.cue_list = [] →
      moveExecCueToExecCue s.executors A X B Y =
        some ((s.executors.set (A - 1) { eF with cue_list := eF.cue_list.eraseIdx iF }).set
          (B - 1) { eT with cue_list := eT.cue_list ++ [cue] })) := by
  constructor
  · by_cases hAB : A = B
    · subst hAB
      have heq : eT = eF := by
        rw [hgF] at hgT
        injection hgT with h
        rw [h]
      subst heq
      cases hf : eT.cue_list.findIdx? (fun c => c.id = X) with
      | none => exact ⟨_, move_src_absent s.executors A X A Y eT eT hgF hgF hf⟩
      | some iF =>
        cases hy : eT.cue_list.findIdx? (fun c => c.id = Y) with
        | some iT => exact move_swap s.executors A X Y eT iF iT hgF hf hy
        | none =>
          obtain ⟨cue, hcue⟩ : ∃ c, eT.cue_list.get? iF = some c :=
            ⟨_, List.get?_eq_get (findIdx?_lt_length hf)⟩
          have hc := hins iF hf hy
          rw [if_pos rfl] at hc
          exact move_same_dest_absent s.executors A X A Y eT iF cue rfl hgF hf hcue hy hc
    · have hidx : A - 1 ≠ B - 1 := by omega
      cases hf : eF.cue_list.findIdx? (fun c => c.id = X) with
      | none => exact ⟨_, move_src_absent s.executors A X B Y eF eT hgF hgT hf⟩
      | some iF =>
        obtain ⟨cue, hcue⟩ : ∃ c, eF.cue_list.get? iF = some c :=
          ⟨_, List.get?_eq_get (findIdx?_lt_length hf)⟩
        cases hy : eT.cue_list.findIdx? (fun c => c.id = Y) with
        | some iT =>
          exact move_exchange s.executors A X B Y eF eT iF iT hAB hidx hgF hgT hf hy
        | none =>
          by_cases hTe : eT.cue_list = []
          · exact ⟨_, move_dest_absent_empty s.executors A X B Y eF eT iF cue
              hidx hgF hgT hf hcue hy hTe⟩
          · have hTne : 0 < eT.cue_list.length := List.length_pos.2 hTe
            have hc := hins iF hf hy
            rw [if_neg hAB] at hc
            have hYle : Y - 1 ≤ eT.cue_list.length := by
              rcases hc with h | h
              · omega
              · exact h
            exact ⟨_, move_dest_absent s.executors A X B Y eF eT iF cue
              hidx hgF hgT hf hcue hy hTne hYle⟩
  · intro iF cue hAB hf hcue hy hTe
    have hidx : A - 1 ≠ B - 1 := by omega
    exact move_dest_absent_empty s.executors A X B Y eF eT iF cue hidx hgF hgT hf hcue hy hTe

/-- Witness for C4 (amended): moving cue 1 from executor 1 to the empty
executor 2 succeeds. -/
theorem C4_witness :
    ∃ l, moveExecCueToExecCue stateC4.executors 1 1 2 1 = some l := by
  exact (C4_amended_no_panic_in_bounds stateC4 1 1 2 1 (exampleExecutor [exampleCue 1 []]) (exampleExecutor [])
    (by decide) (by decide) rfl rfl (fun iF h1 h2 => Or.inl (by decide))).1

/-- C3 as amended: in a cross-executor move where the destination
executor B contains a cue with the moved id X but none with the
destination id Y (indices non-aliasing, destination non-empty, Y-1 in
range), B's original cue of id X and every cue from that first
collision onward are incremented by one, and the moved cue is inserted
keeping its original id X.  The resulting ids need not be pairwise
distinct (see the counterexample), so the uniqueness conjunct of the
original claim is dropped. -/
theorem C3_amended_shift_no_uniqueness (s : ConsoleState) (A B X Y : Nat) (eF eT : Executor)
    (iF k : Nat) (cueX : Cue)
    (hAB : A ≠ B) (hA1 : 1 ≤ A) (hB1 : 1 ≤ B)
    (hgF : s.executors.get? (A - 1) = some eF)
    (hgT : s.executors.get? (B - 1) = some eT)
    (hiF : eF.cue_list.findIdx? (fun c => c.id = X) = some iF)
    (hcue : eF.cue_list.get? iF = some cueX)
    (hYnone : eT.cue_list.findIdx? (fun c => c.id = Y) = none)
    (hTne : 0 < eT.cue_list.length)
    (hYle : Y - 1 ≤ eT.cue_list.length)
    (hk : eT.cue_list.findIdx? (fun c => c.id = X) = some k) :
    cueX.id = X ∧
    ∃ l eT2, moveExecCueToExecCue s.executors A X B Y = some l ∧
      l.get? (B - 1) = some eT2 ∧
      eT2.cue_list =
        List.insertIdx (Y - 1) cueX
          (eT.cue_list.take k ++
            (eT.cue_list.drop k).map (fun c => { c with id := c.id + 1 })) := by
  have hidx : A - 1 ≠ B - 1 := by omega
  have hXid : cueX.id = X := by
    obtain ⟨x, hx, hpx⟩ := findIdx?_get? hiF
    rw [hcue] at hx
    injection hx with hx
    subst hx
    simpa using hpx
  have he := move_dest_absent s.executors A X B Y eF eT iF cueX
    hidx hgF hgT hiF hcue hYnone hTne hYle
  refine ⟨hXid, _,
    { eT with cue_list := List.insertIdx (Y - 1) cueX (shiftIdsFrom false cueX.id eT.cue_list) },
    he, ?_, ?_⟩
  · exact List.get?_set_eq_of_lt _ (by rw [List.length_set]; exact get?_some_lt_length hgT)
  · show List.insertIdx (Y - 1) cueX (shiftIdsFrom false cueX.id eT.cue_list) = _
    rw [hXid, shiftIdsFrom_of_findIdx? X eT.cue_list k hk]

/-- Witness for C3 (amended): the concrete move of cue 3 into executor
2 holding ids [3, 2] produces ids [3, 4, 3]: the collision suffix
incremented, the moved cue keeping id 3. -/
theorem C3_witness :
    ∃ l eT2, moveExecCueToExecCue stateC3.executors 1 3 2 1 = some l ∧
      l.get? 1 = some eT2 ∧ eT2.cue_list.map Cue.id = [3, 4, 3] := by
  have h := C3_amended_shift_no_uniqueness stateC3 1 2 3 1 (exampleExecutor [exampleCue 3 []])
      (exampleExecutor [exampleCue 3 [], exampleCue 2 []]) 0 0 (exampleCue 3 [])
      (by decide) (by decide) (by decide) rfl rfl rfl rfl rfl (by decide) (by decide) rfl
  obtain ⟨hid, l, eT2, h1, h2, h3⟩ := h
  exact ⟨l, eT2, h1, h2, by rw [h3]; rfl⟩

end QGui
